import Mathlib

/-!
Verification of the e-commerce automation core
(`ecom_automation/core/{checkout_flow,browser_manager,api_mock}.py`).

The Python code is shallowly embedded:
* JSON values (parsed request/response bodies, mock-data files) become the
  inductive type `Json`.
* External I/O performed by a step of the checkout flow (page navigation,
  clicks, screenshots) is abstracted by an environment (`SessionEnv`) that
  records the observable outcome of each call: a returned boolean or a
  raised exception (`PyExc`).
* Python exception propagation becomes `Except PyExc` / `Option`.
* Mutable Python object graphs (the response templates rewritten in place by
  `ApiMocker._replace_placeholders`) are modelled by an explicit heap of
  dict/list objects, so that the copy-on-render (no-mutation) guarantee is a
  real statement about heap addresses.
* Wall-clock timing fields (`duration`, `start_time`) are elided; no claim
  mentions them.
-/

/-- A parsed JSON value (Python objects produced by `json.loads`).
Numbers are modelled as integers; the mock payloads and request fields the
claims mention are integers or strings. -/
inductive Json where
  | null : Json
  | bool : Bool → Json
  | num : Int → Json
  | str : String → Json
  | arr : List Json → Json
  | obj : List (String × Json) → Json
deriving Repr

/-- Python exceptions, split the way `run_checkout` splits them:
`checkout_flow.CheckoutError` versus every other `Exception`
(`ElementNotFoundError`, `TimeoutError`, `ZeroDivisionError`, ...).
The second field is `str(e)`. -/
inductive PyExc where
  | checkoutError (msg : String)
  | otherExc (cls : String) (msg : String)
deriving Repr, DecidableEq

/-- `str(e)` for an exception. -/
def excStr : PyExc → String
  | .checkoutError m => m
  | .otherExc _ m => m

/-- Python truthiness of a JSON value (`if scenario_data:`). -/
def pyTruthy : Json → Bool
  | .null => false
  | .bool b => b
  | .num n => n != 0
  | .str s => !s.isEmpty
  | .arr xs => !xs.isEmpty
  | .obj kvs => !kvs.isEmpty

/-- First-match association lookup in a parsed JSON object
(`json.loads` yields unique keys, so this is Python `dict` lookup). -/
def lookupField : List (String × Json) → String → Option Json
  | [], _ => none
  | (k, v) :: rest, key => if k = key then some v else lookupField rest key

/-- Python `data.get(key, default)`: `none` models the `AttributeError`
raised when `data` is not a dict. -/
def pyDictGet (data : Json) (key : String) (default : Json) : Option Json :=
  match data with
  | .obj kvs => some ((lookupField kvs key).getD default)
  | _ => none

/-- `s.startswith(pre)` on the character sequence. -/
def strStartsWith (s pre : String) : Bool := pre.data.isPrefixOf s.data

/-- `s.endswith(suf)` on the character sequence. -/
def strEndsWith (s suf : String) : Bool := suf.data.isSuffixOf s.data

/-- The natural number denoted by a list of decimal digits. -/
def charsToNat (cs : List Char) : Nat :=
  cs.foldl (fun acc c => acc * 10 + (c.toNat - 48)) 0

/-- Python `x.endswith(suffix)`: `none` models the `AttributeError`
raised when `x` is not a string. -/
def pyEndsWith (j : Json) (suffix : String) : Option Bool :=
  match j with
  | .str s => some (strEndsWith s suffix)
  | _ => none

/-- Python `int(s)` on a string: optional surrounding whitespace, optional
sign, decimal digits. `none` models the raised `ValueError`.
(Underscore digit separators accepted by CPython are not modelled; no claim
depends on them.) -/
def parsePyInt (s : String) : Option Int :=
  let t := ((s.data.dropWhile Char.isWhitespace).reverse.dropWhile
    Char.isWhitespace).reverse
  match t with
  | [] => none
  | c :: rest =>
    let (sign, digits) :=
      if c = '-' then ((-1 : Int), rest)
      else if c = '+' then ((1 : Int), rest)
      else ((1 : Int), c :: rest)
    if digits.isEmpty then none
    else if digits.all Char.isDigit then some (sign * Int.ofNat (charsToNat digits))
    else none

/-- Python `int(x)` on a JSON value: `none` models the raised
`TypeError`/`ValueError` (`int(True) = 1` as in CPython). -/
def pyToInt : Json → Option Int
  | .num n => some n
  | .str s => parsePyInt s
  | .bool b => some (if b then 1 else 0)
  | _ => none

/-- `ApiMocker.mock_payment_gateway`: `payment_scenarios.get(card_type, "success")`. -/
def payment_scenarios_get (card_type : String) : String :=
  if card_type = "valid" then "success"
  else if card_type = "declined" then "declined"
  else if card_type = "expired" then "expired"
  else "success"

/-- `payment_scenario_selector` from `ApiMocker.mock_payment_gateway`
(api_mock.py lines 263-277).

* `loads` stands for `json.loads` (`none` = `JSONDecodeError`); a `none`
  body makes `json.loads(None)` raise `TypeError`.
* `currentYear` is `datetime.now().year`.
* `defaultScenario` is the closed-over `scenario` returned by the selector's
  own `except:` clause.  Every internal failure (unparsable body, non-dict
  body, non-string `card_number`, non-integer `expiry_year`) lands there. -/
def payment_scenario_selector (loads : String → Option Json) (currentYear : Int)
    (defaultScenario : String) (post_data : Option String) : String :=
  match post_data with
  | none => defaultScenario
  | some s =>
    match loads s with
    | none => defaultScenario
    | some data =>
      match pyDictGet data "card_number" (Json.str "") with
      | none => defaultScenario
      | some cardJ =>
        match pyEndsWith cardJ "0002" with
        | none => defaultScenario
        | some true => "declined"
        | some false =>
          match pyDictGet data "expiry_year" (Json.num 2099) with
          | none => defaultScenario
          | some eyJ =>
            match pyToInt eyJ with
            | none => defaultScenario
            | some ey => if ey < currentYear then "expired" else "success"

/-! ## Mock-data resolution (`ApiMocker._load_mock_data` / `_get_response_data`)

The file system is a partial map `files : String → Option Json`
(`none` = missing, unreadable or unparsable file: everything the
`except Exception` clause of `_load_mock_data` swallows).
`self._mock_data_cache` is an association list threaded through the calls. -/

/-- `ApiMocker._load_mock_data` (api_mock.py lines 54-75): cache hit first;
on a successful read the data is cached; on any failure the function logs
and returns `{}` without caching. -/
def load_mock_data (files : String → Option Json) (cache : List (String × Json))
    (filename : String) : Json × List (String × Json) :=
  match lookupField cache filename with
  | some data => (data, cache)
  | none =>
    match files filename with
    | some data => (data, (filename, data) :: cache)
    | none => (Json.obj [], cache)

/-- `ApiMocker._get_response_data` (api_mock.py lines 77-100): try the
scenario-specific file `{base}_{scenario}.json` first, fall back to
`{base}.json` when it is absent (loads falsy).  The `request_data` parameter
exists in the Python signature but is unused by the body. -/
def get_response_data (files : String → Option Json) (cache : List (String × Json))
    (base_filename : String) (_request_data : Option Json)
    (scenario : Option String) : Json × List (String × Json) :=
  match scenario with
  | some sc =>
    let scenario_file := base_filename ++ "_" ++ sc ++ ".json"
    let (scenario_data, cache₁) := load_mock_data files cache scenario_file
    if pyTruthy scenario_data then (scenario_data, cache₁)
    else load_mock_data files cache₁ (base_filename ++ ".json")
  | none => load_mock_data files cache (base_filename ++ ".json")

/-! ## Checkout state machine (`checkout_flow.run_checkout`) and session runner

Each of the eight step functions (`login`, `search_product`, ...) interacts
with the external page driver; `run_checkout` observes only the returned
boolean or a raised exception.  `SessionEnv` records those observable
outcomes, plus the outcomes of the remaining external calls `run_checkout`
and `run_single_browser` make themselves. -/

/-- Observable outcome of awaiting one step function. -/
inductive StepOutcome where
  | ret (b : Bool)
  | exc (e : PyExc)

/-- Environment of one browser session: the outcome of every external call. -/
structure SessionEnv where
  /-- Outcome of `BrowserManager.setup_browser` (raises on launch failure). -/
  setup : Except PyExc Unit
  /-- Outcome of awaiting the step function of the given name. -/
  stepOut : String → StepOutcome
  /-- `page.query_selector("[data-testid='orderNumber']")` and its
  `text_content()`: `none` = element absent, `some none` = `text_content()`
  returned `None` (the subsequent `.strip()` raises and is swallowed). -/
  orderElem : Option (Option String)
  /-- Outcome of the final `take_screenshot(page, "checkout_complete", ...)`. -/
  finalShot : Except PyExc String
  /-- Outcome of `take_screenshot(page, "error", ...)` in the
  `except Exception` handler. -/
  errorShot : Except PyExc String

/-- The result dict built by `run_checkout` (checkout_flow.py lines 497-503).
The wall-clock `duration` added later by the runner is elided. -/
structure CheckoutResult where
  status : String
  steps_completed : List String
  screenshots : List String
  order_id : Option String
  error : Option String

/-- The fixed step sequence of `run_checkout` with the message of the
`CheckoutError` raised when the step returns `False`
(checkout_flow.py lines 505-544). -/
def checkoutSteps : List (String × String) :=
  [("login", "Login failed"),
   ("search", "Product search failed"),
   ("add_to_cart", "Add to cart failed"),
   ("proceed_to_checkout", "Proceed to checkout failed"),
   ("handle_captcha", "CAPTCHA handling failed"),
   ("fill_shipping_details", "Fill shipping details failed"),
   ("select_shipping_method", "Select shipping method failed"),
   ("payment", "Payment failed")]

/-- The fixed 8-step order. -/
def stepOrder : List String := checkoutSteps.map Prod.fst

/-- Run the steps in order: append each completed step to
`steps_completed`, halt on the first step that returns `False` (raising
`CheckoutError(msg)`) or that raises.  Returns the completed steps and the
halting exception, if any. -/
def attemptSteps (stepOut : String → StepOutcome) :
    List (String × String) → List String × Option PyExc
  | [] => ([], none)
  | (name, failMsg) :: rest =>
    match stepOut name with
    | .ret true =>
      let (done, halt) := attemptSteps stepOut rest
      (name :: done, halt)
    | .ret false => ([], some (.checkoutError failMsg))
    | .exc e => ([], some e)

/-- The two `except` clauses of `run_checkout` (checkout_flow.py lines
563-577): `CheckoutError` → status `"failed"`; any other `Exception` →
status `"error"` plus an error screenshot, whose own failure propagates. -/
def handleExc (env : SessionEnv) (partialResult : CheckoutResult) (e : PyExc) :
    Except PyExc CheckoutResult :=
  match e with
  | .checkoutError m =>
    .ok { partialResult with status := "failed", error := some m }
  | .otherExc _ m =>
    match env.errorShot with
    | .error e₂ => .error e₂
    | .ok shot =>
      .ok { partialResult with
              status := "error",
              error := some ("Unexpected error: " ++ m),
              screenshots := partialResult.screenshots ++ [shot] }

/-- `run_checkout` (checkout_flow.py lines 486-579).  After the eight steps
succeed it extracts the order id best-effort (its inner `try` swallows every
failure), takes the final screenshot (whose failure lands in the generic
`except Exception` handler), and only then sets status `"success"`. -/
def run_checkout (env : SessionEnv) : Except PyExc CheckoutResult :=
  let r₀ : CheckoutResult :=
    { status := "pending", steps_completed := [], screenshots := [],
      order_id := none, error := none }
  match attemptSteps env.stepOut checkoutSteps with
  | (done, some e) => handleExc env { r₀ with steps_completed := done } e
  | (done, none) =>
    let oid : Option String :=
      match env.orderElem with
      | some (some txt) => some txt.trim
      | _ => none
    let r₁ := { r₀ with steps_completed := done, order_id := oid }
    match env.finalShot with
    | .error e => handleExc env r₁ e
    | .ok shot =>
      .ok { r₁ with screenshots := r₁.screenshots ++ [shot], status := "success" }

/-- The per-session result dict as the orchestrator sees it.  `none` in an
`Option` field models the key being absent from the dict (the exception path
of `run_single_browser` builds a dict with only `user_id`, `status`,
`error`, `duration`). -/
structure SessionRecord where
  user_id : Nat
  status : String
  error : Option String
  steps_completed : Option (List String)
  screenshots : Option (List String)
  order_id : Option (Option String)

/-- `BrowserManager.run_single_browser` (browser_manager.py lines 105-150):
set up the browser, run the checkout flow, tag the result with the
`user_id`; any exception is caught and turned into an `"error"` record. -/
def run_single_browser (env : SessionEnv) (user_id : Nat) : SessionRecord :=
  match env.setup with
  | .error e =>
    { user_id := user_id, status := "error", error := some (excStr e),
      steps_completed := none, screenshots := none, order_id := none }
  | .ok _ =>
    match run_checkout env with
    | .ok r =>
      { user_id := user_id, status := r.status, error := r.error,
        steps_completed := some r.steps_completed,
        screenshots := some r.screenshots, order_id := some r.order_id }
    | .error e =>
      { user_id := user_id, status := "error", error := some (excStr e),
        steps_completed := none, screenshots := none, order_id := none }

/-- `BrowserManager.run_parallel_sessions` (browser_manager.py lines
152-187).  One task per `i in range(num_users)`; `asyncio.as_completed`
yields the results in completion order, modelled by `completionOrder`
(a permutation of `range num_users` in the theorems).  After collecting,
`success_rate = (success_count / num_users) * 100` raises
`ZeroDivisionError` when `num_users == 0`. -/
def run_parallel_sessions (envOf : Nat → SessionEnv) (completionOrder : List Nat)
    (num_users : Nat) : Except PyExc (List SessionRecord) :=
  let results := completionOrder.map fun i => run_single_browser (envOf i) i
  if num_users = 0 then
    .error (.otherExc "ZeroDivisionError" "division by zero")
  else .ok results

/-! ## Placeholder substitution (`ApiMocker._add_dynamic_data`)

`_replace_placeholders` mutates a Python object graph in place, so here the
dict/list objects live on an explicit heap: an address-indexed list of
objects whose slots hold either immutable scalars or references to other
objects.  `_add_dynamic_data` first deep-copies its argument through
`json.loads(json.dumps(data))` — modelled as serialising the graph to a pure
`Json` tree (`dumpSlot`) and allocating a fresh graph from it (`allocTree`)
— and then rewrites the copy in place (`replaceAt`).  Recursion through the
heap uses fuel; `none` models the `RecursionError`/`ValueError` CPython
raises on cyclic or over-deep data (and the `ValueError` of
`random.randint(a, b)` when `a > b`). -/

/-- An immutable scalar stored directly in a slot. -/
inductive JLeaf where
  | null : JLeaf
  | bool : Bool → JLeaf
  | num : Int → JLeaf
  | str : String → JLeaf
deriving Repr, DecidableEq

/-- One slot of a container: a scalar or a reference to a heap object. -/
inductive JSlot where
  | leaf : JLeaf → JSlot
  | ref : Nat → JSlot
deriving Repr, DecidableEq

/-- A heap object: a dict or a list. -/
inductive JObj where
  | dict : List (String × JSlot) → JObj
  | list : List JSlot → JObj
deriving Repr, DecidableEq

/-- The heap: object at address `a` is `h[a]?`. -/
abbrev Heap := List JObj

/-- The scalar a slot serialises to. -/
def leafToJson : JLeaf → Json
  | .null => .null
  | .bool b => .bool b
  | .num n => .num n
  | .str s => .str s

/-- References held directly by a list of slots. -/
def slotsRefs : List JSlot → List Nat
  | [] => []
  | .ref b :: rest => b :: slotsRefs rest
  | .leaf _ :: rest => slotsRefs rest

/-- References held directly by a heap object. -/
def objRefs : JObj → List Nat
  | .dict fields => slotsRefs (fields.map Prod.snd)
  | .list items => slotsRefs items

/-- The environment behind the dynamic placeholders: `datetime.now()` and
`random.randint`, indexed by how many such effects happened before. -/
structure DynEnv where
  nowIso : Nat → String
  randInt : Nat → Int → Int → Int

/-- `re.match(r"\$RANDOM_INT\((\d+),(\d+)\)\$", value)` — `re.match` anchors
only at the start, so trailing text after `)$` is accepted.  Greedy `\d+`
followed by a mandatory `,`/`)` is maximal-munch, as implemented here.
(CPython's `\d` also matches non-ASCII Unicode digits; not modelled.) -/
def parseRandomInt (s : String) : Option (Int × Int) :=
  let cs := s.data
  if "$RANDOM_INT(".data.isPrefixOf cs then
    let rest := cs.drop 12
    let ds₁ := rest.takeWhile Char.isDigit
    if ds₁.isEmpty then none
    else
      match rest.drop ds₁.length with
      | ',' :: rest₂ =>
        let ds₂ := rest₂.takeWhile Char.isDigit
        if ds₂.isEmpty then none
        else
          let rest₃ := rest₂.drop ds₂.length
          if ")$".data.isPrefixOf rest₃ then
            some (Int.ofNat (charsToNat ds₁), Int.ofNat (charsToNat ds₂))
          else none
      | _ => none
  else none

/-- `ApiMocker._replace_placeholder_string` (api_mock.py lines 209-232).
The state is the effect counter; `none` models the `ValueError` raised by
`random.randint(a, b)` when `a > b`. -/
def replaceString (env : DynEnv) (st : Nat) (v : String) : Option (String × Nat) :=
  if v = "$TIMESTAMP$" then some (env.nowIso st, st + 1)
  else if v = "$ORDER_ID$" then
    some ("ORD-" ++ toString (env.randInt st 10000 99999), st + 1)
  else if v = "$TRANSACTION_ID$" then
    some ("TX-" ++ toString (env.randInt st 100000 999999), st + 1)
  else if strStartsWith v "$RANDOM_" then
    match parseRandomInt v with
    | some (a, b) =>
      if a ≤ b then some (toString (env.randInt st a b), st + 1) else none
    | none => some (v, st)
  else some (v, st)

mutual
/-- `ApiMocker._replace_placeholders` (api_mock.py lines 189-207) on the
object at address `a`: rewrite every string slot through
`replaceString`, recurse into dict/list slots, leave other scalars alone.
The rebuilt object is written back to `a`; references are never changed. -/
def replaceAt (env : DynEnv) : Nat → Heap → Nat → Nat → Option (Heap × Nat)
  | 0, _, _, _ => none
  | fuel + 1, h, st, a =>
    match h[a]? with
    | none => none
    | some (.dict fields) =>
      match replaceSlots env fuel h st (fields.map Prod.snd) with
      | none => none
      | some (h₁, st₁, slots₁) =>
        some (h₁.set a (.dict ((fields.map Prod.fst).zip slots₁)), st₁)
    | some (.list items) =>
      match replaceSlots env fuel h st items with
      | none => none
      | some (h₁, st₁, items₁) => some (h₁.set a (.list items₁), st₁)
termination_by fuel _ _ _ => (fuel, 0)

/-- Process the slots of one container in order. -/
def replaceSlots (env : DynEnv) : Nat → Heap → Nat → List JSlot →
    Option (Heap × Nat × List JSlot)
  | _, h, st, [] => some (h, st, [])
  | fuel, h, st, .ref b :: rest =>
    match replaceAt env fuel h st b with
    | none => none
    | some (h₁, st₁) =>
      match replaceSlots env fuel h₁ st₁ rest with
      | none => none
      | some (h₂, st₂, rest₂) => some (h₂, st₂, .ref b :: rest₂)
  | fuel, h, st, .leaf (.str s) :: rest =>
    match replaceString env st s with
    | none => none
    | some (s₁, st₁) =>
      match replaceSlots env fuel h st₁ rest with
      | none => none
      | some (h₂, st₂, rest₂) => some (h₂, st₂, .leaf (.str s₁) :: rest₂)
  | fuel, h, st, .leaf l :: rest =>
    match replaceSlots env fuel h st rest with
    | none => none
    | some (h₂, st₂, rest₂) => some (h₂, st₂, .leaf l :: rest₂)
termination_by fuel _ _ slots => (fuel, slots.length + 1)
end

mutual
/-- `json.dumps` of the object at address `a`, read back as the pure JSON
tree it denotes (`none` models `ValueError: Circular reference detected` /
`RecursionError`). -/
def dumpAt : Nat → Heap → Nat → Option Json
  | 0, _, _ => none
  | fuel + 1, h, a =>
    match h[a]? with
    | none => none
    | some (.dict fields) =>
      match dumpSlots fuel h (fields.map Prod.snd) with
      | none => none
      | some ts => some (.obj ((fields.map Prod.fst).zip ts))
    | some (.list items) =>
      match dumpSlots fuel h items with
      | none => none
      | some ts => some (.arr ts)
termination_by fuel _ _ => (fuel, 0)

/-- Serialise a list of slots in order. -/
def dumpSlots : Nat → Heap → List JSlot → Option (List Json)
  | _, _, [] => some []
  | fuel, h, .leaf l :: rest =>
    match dumpSlots fuel h rest with
    | none => none
    | some ts => some (leafToJson l :: ts)
  | fuel, h, .ref b :: rest =>
    match dumpAt fuel h b with
    | none => none
    | some t =>
      match dumpSlots fuel h rest with
      | none => none
      | some ts => some (t :: ts)
termination_by fuel _ slots => (fuel, slots.length + 1)
end

/-- Serialise one slot (the root of `json.dumps`). -/
def dumpSlot (fuel : Nat) (h : Heap) : JSlot → Option Json
  | .leaf l => some (leafToJson l)
  | .ref a => dumpAt fuel h a

mutual
/-- `json.loads` of a serialised tree: allocate a fresh object graph for it.
Containers are appended to the heap; scalars stay inline.  A fresh graph
shares no address with, and holds no reference into, the pre-existing heap. -/
def allocTree (h : Heap) : Json → Heap × JSlot
  | .null => (h, .leaf .null)
  | .bool b => (h, .leaf (.bool b))
  | .num n => (h, .leaf (.num n))
  | .str s => (h, .leaf (.str s))
  | .arr xs =>
    let (h₁, slots) := allocList h xs
    (h₁ ++ [.list slots], .ref h₁.length)
  | .obj kvs =>
    let (h₁, fields) := allocFields h kvs
    (h₁ ++ [.dict fields], .ref h₁.length)

/-- Allocate the elements of an array in order. -/
def allocList (h : Heap) : List Json → Heap × List JSlot
  | [] => (h, [])
  | t :: ts =>
    let (h₁, s) := allocTree h t
    let (h₂, ss) := allocList h₁ ts
    (h₂, s :: ss)

/-- Allocate the values of an object in order. -/
def allocFields (h : Heap) : List (String × Json) → Heap × List (String × JSlot)
  | [] => (h, [])
  | (k, t) :: kts =>
    let (h₁, s) := allocTree h t
    let (h₂, fs) := allocFields h₁ kts
    (h₂, (k, s) :: fs)
end

/-- `ApiMocker._add_dynamic_data` (api_mock.py lines 171-187):
`result = json.loads(json.dumps(data))` (serialise, then allocate a fresh
copy), then `self._replace_placeholders(result)` mutates the copy in place;
the original graph under `root` is never written. -/
def add_dynamic_data (env : DynEnv) (fuel : Nat) (h : Heap) (st : Nat)
    (root : JSlot) : Option (Heap × JSlot × Nat) :=
  match dumpSlot fuel h root with
  | none => none
  | some t =>
    let (h₁, root₁) := allocTree h t
    match root₁ with
    | .leaf l => some (h₁, .leaf l, st)
    | .ref a =>
      match replaceAt env fuel h₁ st a with
      | none => none
      | some (h₂, st₂) => some (h₂, .ref a, st₂)

/-! ## Request interception (`ApiMocker.mock_api`'s route handler) -/

/-- An intercepted request: its URL and `request.post_data`. -/
structure Request where
  url : String
  post_data : Option String

/-- The action the route handler takes on an intercepted request. -/
inductive RouteAction where
  | fulfill (status : Nat) (body : Json)
  | cont
deriving Repr

/-- `_add_dynamic_data` applied to a freshly parsed JSON value: load the
value into an empty heap, run the heap-level pipeline, and read the result
back. -/
def add_dynamic_json (env : DynEnv) (fuel : Nat) (st : Nat) (t : Json) :
    Option (Json × Nat) :=
  let (h, root) := allocTree [] t
  match add_dynamic_data env fuel h st root with
  | none => none
  | some (h₁, root₁, st₁) =>
    match dumpSlot fuel h₁ root₁ with
    | none => none
    | some t₁ => some (t₁, st₁)

/-- The `handler` closure installed by `ApiMocker.mock_api`
(api_mock.py lines 124-167) for an already-matched route.

Order of operations inside its `try`:
1. if a validator is present and returns `False` → `fulfill(400, {"error":
   "Invalid request"})`;
2. parse `request.post_data` (`json.JSONDecodeError` → `None`; an absent or
   empty body is skipped by the `if request.post_data:` guard);
3. if a `scenario_selector` is present, invoke it;
4. `_get_response_data`, `_add_dynamic_data`, `fulfill(status, body)`.
Any exception escaping steps 1-4 — including one raised by the validator or
the scenario selector — is caught by the trailing `except Exception`, which
logs and falls back to `route.continue_()` (pass-through).
Returns the action, the mock-data cache afterwards, and the effect counter. -/
def mock_handler (loads : String → Option Json)
    (request_validator : Option (Request → Except PyExc Bool))
    (scenario_selector : Option (Request → Except PyExc String))
    (files : String → Option Json) (mock_filename : String) (status : Nat)
    (env : DynEnv) (fuel : Nat) (cache : List (String × Json)) (st : Nat)
    (req : Request) : RouteAction × List (String × Json) × Nat :=
  let validated : Except PyExc Bool :=
    match request_validator with
    | none => .ok true
    | some v => v req
  match validated with
  | .error _ => (.cont, cache, st)
  | .ok false =>
    (.fulfill 400 (Json.obj [("error", Json.str "Invalid request")]), cache, st)
  | .ok true =>
    let request_data : Option Json :=
      match req.post_data with
      | some s => if s.isEmpty then none else loads s
      | none => none
    let scenario : Except PyExc (Option String) :=
      match scenario_selector with
      | none => .ok none
      | some sel =>
        match sel req with
        | .error e => .error e
        | .ok sc => .ok (some sc)
    match scenario with
    | .error _ => (.cont, cache, st)
    | .ok sc =>
      let (response_data, cache₁) :=
        get_response_data files cache mock_filename request_data sc
      match add_dynamic_json env fuel st response_data with
      | none => (.cont, cache₁, st)
      | some (body, st₁) => (.fulfill status body, cache₁, st₁)

/-! ## Helper lemmas about the checkout state machine -/

/-- The completed steps are always an initial segment of the step list. -/
theorem attemptSteps_take (f : String → StepOutcome) :
    ∀ steps : List (String × String),
      ∃ n, (attemptSteps f steps).1 = (steps.map Prod.fst).take n
  | [] => ⟨0, rfl⟩
  | (name, failMsg) :: rest => by
    unfold attemptSteps
    cases f name with
    | ret b =>
      cases b with
      | true =>
        obtain ⟨n, hn⟩ := attemptSteps_take f rest
        exact ⟨n + 1, by simp [hn]⟩
      | false => exact ⟨0, rfl⟩
    | exc e => exact ⟨0, rfl⟩

/-- If no step halted, every step completed. -/
theorem attemptSteps_complete (f : String → StepOutcome) :
    ∀ steps : List (String × String),
      (attemptSteps f steps).2 = none →
      (attemptSteps f steps).1 = steps.map Prod.fst
  | [], _ => rfl
  | (name, failMsg) :: rest, h => by
    unfold attemptSteps at h ⊢
    cases hf : f name with
    | ret b =>
      cases b with
      | true =>
        rw [hf] at h
        simp only [List.map_cons, List.cons.injEq, true_and]
        exact attemptSteps_complete f rest (by simpa using h)
      | false => rw [hf] at h; simp at h
    | exc e => rw [hf] at h; simp at h

/-- Anatomy of every `Except.ok` return of `run_checkout`: the completed
steps are those of `attemptSteps`; the status is one of the three terminal
values; `"success"` is only reached when no step halted and with no error
attached. -/
theorem run_checkout_spec (env : SessionEnv) (r : CheckoutResult)
    (h : run_checkout env = Except.ok r) :
    r.steps_completed = (attemptSteps env.stepOut checkoutSteps).1 ∧
    (r.status = "success" ∨ r.status = "failed" ∨ r.status = "error") ∧
    (r.status = "success" →
      (attemptSteps env.stepOut checkoutSteps).2 = none ∧ r.error = none) := by
  unfold run_checkout at h
  rcases hA : attemptSteps env.stepOut checkoutSteps with ⟨done, halt⟩
  rw [hA] at h
  cases halt with
  | some e =>
    unfold handleExc at h
    cases e with
    | checkoutError m =>
      simp only [Except.ok.injEq] at h
      subst h
      refine ⟨rfl, Or.inr (Or.inl rfl), ?_⟩
      intro hs; simp at hs
    | otherExc cls m =>
      cases hshot : env.errorShot with
      | error e₂ => rw [hshot] at h; simp at h
      | ok shot =>
        rw [hshot] at h
        simp only [Except.ok.injEq] at h
        subst h
        refine ⟨rfl, Or.inr (Or.inr rfl), ?_⟩
        intro hs; simp at hs
  | none =>
    cases hshot : env.finalShot with
    | error e =>
      rw [hshot] at h
      unfold handleExc at h
      cases e with
      | checkoutError m =>
        simp only [Except.ok.injEq] at h
        subst h
        refine ⟨rfl, Or.inr (Or.inl rfl), ?_⟩
        intro hs; simp at hs
      | otherExc cls m =>
        cases hshot₂ : env.errorShot with
        | error e₂ => rw [hshot₂] at h; simp at h
        | ok shot =>
          rw [hshot₂] at h
          simp only [Except.ok.injEq] at h
          subst h
          refine ⟨rfl, Or.inr (Or.inr rfl), ?_⟩
          intro hs; simp at hs
    | ok shot =>
      rw [hshot] at h
      simp only [Except.ok.injEq] at h
      subst h
      exact ⟨rfl, Or.inl rfl, fun _ => ⟨rfl, rfl⟩⟩

/-- An all-green session environment, used to instantiate theorems with
hypotheses at concrete inputs. -/
def envAllOk : SessionEnv :=
  { setup := .ok (), stepOut := fun _ => .ret true, orderElem := none,
    finalShot := .ok "final.png", errorShot := .ok "error.png" }

/-- C2: every result returned by `run_checkout` has `steps_completed` equal
to an initial segment of the fixed 8-step order — steps never appear out of
order, never more than once, and none is skipped. -/
theorem c2_steps_prefix_of_order (env : SessionEnv) (r : CheckoutResult)
    (h : run_checkout env = Except.ok r) :
    ∃ n, r.steps_completed = stepOrder.take n := by
  rw [(run_checkout_spec env r h).1]
  exact attemptSteps_take env.stepOut checkoutSteps

/-- C2 witness: the theorem applied to a concrete successful run. -/
theorem c2_steps_prefix_witness :
    ∃ n, (CheckoutResult.mk "success" stepOrder ["final.png"] none none).steps_completed
      = stepOrder.take n :=
  c2_steps_prefix_of_order envAllOk _ rfl

/-- C7: a `"success"` result of `run_checkout` has all 8 steps completed and
no error attached. -/
theorem c7_success_all_steps (env : SessionEnv) (r : CheckoutResult)
    (h : run_checkout env = Except.ok r) (hs : r.status = "success") :
    r.steps_completed.length = 8 ∧ r.error = none := by
  obtain ⟨hsteps, _, hsucc⟩ := run_checkout_spec env r h
  obtain ⟨hhalt, herr⟩ := hsucc hs
  refine ⟨?_, herr⟩
  rw [hsteps, attemptSteps_complete env.stepOut checkoutSteps hhalt]
  rfl

/-- C7 witness: the theorem applied to a concrete successful run. -/
theorem c7_success_all_steps_witness :
    (CheckoutResult.mk "success" stepOrder ["final.png"] none none).steps_completed.length = 8 ∧
    (CheckoutResult.mk "success" stepOrder ["final.png"] none none).error = none :=
  c7_success_all_steps envAllOk _ rfl rfl

/-- C10: every dict returned by `run_checkout` carries a terminal status —
`"success"`, `"failed"` or `"error"`; the initial `"pending"` status is
never observable on a return path. -/
theorem c10_terminal_status (env : SessionEnv) (r : CheckoutResult)
    (h : run_checkout env = Except.ok r) :
    r.status = "success" ∨ r.status = "failed" ∨ r.status = "error" :=
  (run_checkout_spec env r h).2.1

/-- C10 witness: the theorem applied to a concrete run. -/
theorem c10_terminal_status_witness :
    (CheckoutResult.mk "success" stepOrder ["final.png"] none none).status = "success" ∨
    (CheckoutResult.mk "success" stepOrder ["final.png"] none none).status = "failed" ∨
    (CheckoutResult.mk "success" stepOrder ["final.png"] none none).status = "error" :=
  c10_terminal_status envAllOk _ rfl

/-- C3: when `login` and `search` succeed and the `add_to_cart` step call
raises an `ElementNotFoundError` (an exception that is not a
`CheckoutError`, surfacing from the step), every result `run_checkout`
returns has status `"error"` and `steps_completed = ["login", "search"]`. -/
theorem c3_add_to_cart_element_not_found (env : SessionEnv) (msg : String)
    (h₁ : env.stepOut "login" = .ret true)
    (h₂ : env.stepOut "search" = .ret true)
    (h₃ : env.stepOut "add_to_cart" = .exc (.otherExc "ElementNotFoundError" msg))
    (r : CheckoutResult) (hr : run_checkout env = Except.ok r) :
    r.status = "error" ∧ r.steps_completed = ["login", "search"] := by
  have hA : attemptSteps env.stepOut checkoutSteps =
      (["login", "search"], some (.otherExc "ElementNotFoundError" msg)) := by
    simp only [checkoutSteps, attemptSteps, h₁, h₂, h₃]
  unfold run_checkout at hr
  rw [hA] at hr
  unfold handleExc at hr
  cases hshot : env.errorShot with
  | error e₂ => rw [hshot] at hr; simp at hr
  | ok shot =>
    rw [hshot] at hr
    simp only [Except.ok.injEq] at hr
    subst hr
    exact ⟨rfl, rfl⟩

/-- A session environment whose `add_to_cart` call raises
`ElementNotFoundError` after `login` and `search` succeeded. -/
def envCartExc : SessionEnv :=
  { setup := .ok (),
    stepOut := fun s =>
      if s = "add_to_cart" then
        .exc (.otherExc "ElementNotFoundError" "Element not found: addProductToCartButton")
      else .ret true,
    orderElem := none, finalShot := .ok "final.png", errorShot := .ok "error.png" }

/-- C3 witness: the theorem applied to the concrete environment above. -/
theorem c3_add_to_cart_element_not_found_witness :
    (CheckoutResult.mk "error" ["login", "search"] ["error.png"] none
        (some "Unexpected error: Element not found: addProductToCartButton")).status = "error" ∧
    (CheckoutResult.mk "error" ["login", "search"] ["error.png"] none
        (some "Unexpected error: Element not found: addProductToCartButton")).steps_completed
      = ["login", "search"] :=
  c3_add_to_cart_element_not_found envCartExc
    "Element not found: addProductToCartButton" rfl rfl rfl _ rfl

/-- C6: an exception surfacing from a step call is caught at the
state-machine boundary: a `CheckoutError` produces a returned record with
terminal status `"failed"`, any other exception one with terminal status
`"error"`.  `run_single_browser` is a total function into `SessionRecord`,
so neither exception reaches the orchestrator. -/
theorem c6_step_exceptions_contained (env : SessionEnv) (uid : Nat)
    (hsetup : env.setup = .ok ()) :
    (∀ m, (attemptSteps env.stepOut checkoutSteps).2 = some (.checkoutError m) →
      (run_single_browser env uid).status = "failed") ∧
    (∀ cls m, (attemptSteps env.stepOut checkoutSteps).2 = some (.otherExc cls m) →
      (run_single_browser env uid).status = "error") := by
  constructor
  · intro m hm
    unfold run_single_browser
    rw [hsetup]
    unfold run_checkout
    rcases hA : attemptSteps env.stepOut checkoutSteps with ⟨done, halt⟩
    rw [hA] at hm
    simp only at hm
    subst hm
    rfl
  · intro cls m hm
    unfold run_single_browser
    rw [hsetup]
    unfold run_checkout
    rcases hA : attemptSteps env.stepOut checkoutSteps with ⟨done, halt⟩
    rw [hA] at hm
    simp only at hm
    subst hm
    unfold handleExc
    cases hshot : env.errorShot with
    | error e₂ => rfl
    | ok shot => rfl

/-- A session environment whose `login` step raises a `TimeoutError`. -/
def envLoginExc : SessionEnv :=
  { setup := .ok (),
    stepOut := fun s =>
      if s = "login" then .exc (.otherExc "TimeoutError" "Timeout 10000ms exceeded")
      else .ret true,
    orderElem := none, finalShot := .ok "final.png", errorShot := .ok "error.png" }

/-- C6 witness: the theorem applied to a concrete raising environment. -/
theorem c6_step_exceptions_contained_witness :
    (run_single_browser envLoginExc 0).status = "error" :=
  (c6_step_exceptions_contained envLoginExc 0 rfl).2 "TimeoutError"
    "Timeout 10000ms exceeded" rfl

/-- Each record produced by `run_single_browser` carries its own session id:
both the normal path (`result["user_id"] = user_id`) and the exception path
set it. -/
theorem run_single_browser_user_id (env : SessionEnv) (i : Nat) :
    (run_single_browser env i).user_id = i := by
  unfold run_single_browser
  cases hs : env.setup with
  | error e => rfl
  | ok u =>
    cases hr : run_checkout env with
    | error e => rfl
    | ok r => rfl

/-- C1 counterexample: at `N = 0` the orchestrator does not return an empty
result list — `success_rate = (success_count / num_users) * 100` raises
`ZeroDivisionError`, so `run_parallel_sessions(0)` raises instead of
returning the 0 results the claim promises. -/
theorem c1_counterexample_zero_users :
    run_parallel_sessions (fun _ => envAllOk) [] 0 =
      Except.error (PyExc.otherExc "ZeroDivisionError" "division by zero") := rfl

/-- C1 (amended to `N ≥ 1`): for every `N ≥ 1` and every completion order
(a permutation of `range N`), the orchestrator returns exactly `N` result
records whose `user_id`s are exactly `0, ..., N-1` — pairwise distinct and
each in `[0, N)`. -/
theorem c1_parallel_sessions_unique_ids (envOf : Nat → SessionEnv)
    (completionOrder : List Nat) (N : Nat) (hN : 1 ≤ N)
    (hperm : completionOrder.Perm (List.range N)) :
    ∃ rs, run_parallel_sessions envOf completionOrder N = Except.ok rs ∧
      rs.length = N ∧
      (rs.map SessionRecord.user_id).Perm (List.range N) ∧
      (rs.map SessionRecord.user_id).Nodup ∧
      ∀ r ∈ rs, r.user_id < N := by
  have hids : (completionOrder.map fun i => run_single_browser (envOf i) i).map
      SessionRecord.user_id = completionOrder := by
    rw [List.map_map]
    have hco : (SessionRecord.user_id ∘ fun i => run_single_browser (envOf i) i)
        = id := by
      funext i
      exact run_single_browser_user_id (envOf i) i
    rw [hco, List.map_id]
  refine ⟨completionOrder.map fun i => run_single_browser (envOf i) i, ?_, ?_, ?_, ?_, ?_⟩
  · unfold run_parallel_sessions
    rw [if_neg (by omega)]
  · rw [List.length_map, hperm.length_eq, List.length_range]
  · rw [hids]; exact hperm
  · rw [hids]; exact hperm.nodup_iff.mpr (List.nodup_range N)
  · intro r hr
    obtain ⟨i, hi, rfl⟩ := List.mem_map.mp hr
    rw [run_single_browser_user_id]
    exact List.mem_range.mp (hperm.mem_iff.mp hi)

/-- C1 witness: the amended theorem applied at `N = 2` with completion
order `[1, 0]`. -/
theorem c1_parallel_sessions_unique_ids_witness :
    ∃ rs, run_parallel_sessions (fun _ => envAllOk) [1, 0] 2 = Except.ok rs ∧
      rs.length = 2 ∧
      (rs.map SessionRecord.user_id).Perm (List.range 2) ∧
      (rs.map SessionRecord.user_id).Nodup ∧
      ∀ r ∈ rs, r.user_id < 2 :=
  c1_parallel_sessions_unique_ids (fun _ => envAllOk) [1, 0] 2 (by omega) (by decide)

/-- C4: the payment scenario selector.  For a parsable JSON-object body
whose `card_number` is a string: a card number ending in the sentinel
suffix `"0002"` selects `"declined"` regardless of every other field;
otherwise an integer `expiry_year` earlier than the current year selects
`"expired"` and a later-or-equal one `"success"`; with no `expiry_year`
field the default `2099` applies, giving `"success"` for any current year
up to 2099. -/
theorem c4_payment_scenario_selection (loads : String → Option Json)
    (year : Int) (defS : String) (s : String) (kvs : List (String × Json))
    (c : String) (hload : loads s = some (Json.obj kvs))
    (hcard : lookupField kvs "card_number" = some (Json.str c)) :
    (strEndsWith c "0002" = true →
      payment_scenario_selector loads year defS (some s) = "declined") ∧
    (∀ ey : Int, strEndsWith c "0002" = false →
      lookupField kvs "expiry_year" = some (Json.num ey) →
      payment_scenario_selector loads year defS (some s) =
        if ey < year then "expired" else "success") ∧
    (strEndsWith c "0002" = false →
      lookupField kvs "expiry_year" = none → year ≤ 2099 →
      payment_scenario_selector loads year defS (some s) = "success") := by
  refine ⟨?_, ?_, ?_⟩
  · intro hend
    simp [payment_scenario_selector, hload, pyDictGet, hcard, pyEndsWith, hend]
  · intro ey hend hey
    simp [payment_scenario_selector, hload, pyDictGet, hcard, pyEndsWith, hend,
      hey, pyToInt]
  · intro hend hey hyear
    simp only [payment_scenario_selector, hload, pyDictGet, hcard, pyEndsWith,
      hend, hey, pyToInt, Option.getD]
    rw [if_neg (by omega)]

/-- The request body of spec Scenario 3:
`{"card_number": "4000000000000002", "amount": 50, ...}`. -/
def declinedBody : List (String × Json) :=
  [("amount", Json.num 50), ("currency", Json.str "USD"),
   ("card_number", Json.str "4000000000000002"),
   ("expiry_month", Json.num 12), ("expiry_year", Json.num 2030),
   ("cvv", Json.str "123")]

/-- C4 witness: the theorem applied to a concrete declined-card body with
current year 2026. -/
theorem c4_payment_scenario_selection_witness :
    payment_scenario_selector (fun _ => some (Json.obj declinedBody)) 2026
      "success" (some "body") = "declined" :=
  (c4_payment_scenario_selection (fun _ => some (Json.obj declinedBody)) 2026
      "success" "body" declinedBody "4000000000000002" rfl rfl).1 (by decide)

/-- A trivial dynamic-data environment for concrete evaluations. -/
def dynEnvW : DynEnv := { nowIso := fun _ => "2026-10-12T00:00:00", randInt := fun _ a _ => a }

/-- C5 counterexample: a route whose scenario selector raises.  The handler
catches the failure, but instead of rendering the route's default scenario
it returns `route.continue_()` — pass-through, not a fulfilled mock
response, refuting the claim at this concrete input. -/
theorem c5_counterexample_selector_raises :
    mock_handler (fun _ => none) none
      (some fun _ => Except.error (.otherExc "RuntimeError" "selector blew up"))
      (fun _ => some (Json.obj [("status", Json.str "ok")])) "payment" 200
      dynEnvW 9 [] 0 (Request.mk "https://api.example.com/api/payment/process" (some "{}"))
      = (RouteAction.cont, [], 0) := rfl

/-- C5 (amended): when the scenario selector raises, the handler catches
the failure and degrades to pass-through (`route.continue_()`), leaving the
mock-data cache untouched; it does not fulfill with the default scenario.
(The built-in `payment_scenario_selector` never raises — its own `except:`
returns the route's default scenario — which is where the fallback-to-
default behaviour actually lives.) -/
theorem c5_selector_failure_passes_through (loads : String → Option Json)
    (request_validator : Option (Request → Except PyExc Bool))
    (sel : Request → Except PyExc String)
    (files : String → Option Json) (mock_filename : String) (status : Nat)
    (env : DynEnv) (fuel : Nat) (cache : List (String × Json)) (st : Nat)
    (req : Request) (e : PyExc)
    (hv : ∀ v, request_validator = some v → v req = Except.ok true)
    (hsel : sel req = Except.error e) :
    mock_handler loads request_validator (some sel) files mock_filename status
      env fuel cache st req = (RouteAction.cont, cache, st) := by
  unfold mock_handler
  cases hval : request_validator with
  | none => simp only [hsel]
  | some v => simp only [hv v hval, hsel]

/-- C5 witness: the amended theorem applied at a concrete raising selector. -/
theorem c5_selector_failure_passes_through_witness :
    mock_handler (fun _ => none) none
      (some fun _ => Except.error (.otherExc "KeyError" "card_number"))
      (fun _ => some (Json.obj [])) "payment" 200 dynEnvW 9
      [("payment.json", Json.obj [])] 3
      (Request.mk "https://api.example.com/api/payment/process" none)
      = (RouteAction.cont, [("payment.json", Json.obj [])], 3) :=
  c5_selector_failure_passes_through (fun _ => none) none _ (fun _ => some (Json.obj []))
    "payment" 200 dynEnvW 9 [("payment.json", Json.obj [])] 3
    (Request.mk "https://api.example.com/api/payment/process" none)
    (.otherExc "KeyError" "card_number") (fun v hv => by cases hv) rfl

/-- If the file system has the file, `_load_mock_data` returns its contents
(whether served from a coherent cache or freshly read). -/
theorem load_mock_data_found (files : String → Option Json)
    (cache : List (String × Json)) (k : String) (d : Json)
    (hcache : ∀ key v, lookupField cache key = some v → files key = some v)
    (hf : files k = some d) :
    (load_mock_data files cache k).1 = d := by
  unfold load_mock_data
  cases hc : lookupField cache k with
  | none => rw [hf]
  | some v =>
    have := hcache k v hc
    rw [hf] at this
    simp only [Option.some.injEq] at this
    simp [this]

/-- If the file is missing (or unreadable), `_load_mock_data` returns the
empty template and leaves the cache unchanged. -/
theorem load_mock_data_missing (files : String → Option Json)
    (cache : List (String × Json)) (k : String)
    (hcache : ∀ key v, lookupField cache key = some v → files key = some v)
    (hf : files k = none) :
    load_mock_data files cache k = (Json.obj [], cache) := by
  unfold load_mock_data
  cases hc : lookupField cache k with
  | none => rw [hf]
  | some v =>
    have := hcache k v hc
    rw [hf] at this
    cases this

/-- C8: mock-response resolution never raises (it is a total function) and
follows the documented lookup order: with a scenario, the scenario-specific
file `{base}_{scenario}.json` is used when present (and non-empty); when it
is missing the base file `{base}.json` is used; when both are missing the
result is the empty template `{}`.  `cache` is any cache coherent with the
file system (every cached entry was read from it). -/
theorem c8_mock_resolution (files : String → Option Json)
    (cache : List (String × Json)) (base sc : String)
    (hcache : ∀ key v, lookupField cache key = some v → files key = some v) :
    (∀ d, files (base ++ "_" ++ sc ++ ".json") = some d → pyTruthy d = true →
      (get_response_data files cache base none (some sc)).1 = d) ∧
    (∀ d, files (base ++ "_" ++ sc ++ ".json") = none →
      files (base ++ ".json") = some d →
      (get_response_data files cache base none (some sc)).1 = d) ∧
    (files (base ++ "_" ++ sc ++ ".json") = none →
      files (base ++ ".json") = none →
      (get_response_data files cache base none (some sc)).1 = Json.obj []) := by
  refine ⟨?_, ?_, ?_⟩
  · intro d hsc htruthy
    simp only [get_response_data]
    rcases hload : load_mock_data files cache (base ++ "_" ++ sc ++ ".json")
      with ⟨data, cache₁⟩
    have h₁ := load_mock_data_found files cache (base ++ "_" ++ sc ++ ".json")
      d hcache hsc
    rw [hload] at h₁
    simp only at h₁
    subst h₁
    simp [htruthy]
  · intro d hsc hbase
    simp only [get_response_data]
    rw [load_mock_data_missing files cache _ hcache hsc]
    simp only [pyTruthy, List.isEmpty_nil, Bool.not_true]
    rw [if_neg (by simp)]
    exact load_mock_data_found files cache _ d hcache hbase
  · intro hsc hbase
    simp only [get_response_data]
    rw [load_mock_data_missing files cache _ hcache hsc]
    simp only [pyTruthy, List.isEmpty_nil, Bool.not_true]
    rw [if_neg (by simp)]
    rw [load_mock_data_missing files cache _ hcache hbase]

/-- A two-file mock directory: `payment_declined.json` and `payment.json`. -/
def filesW : String → Option Json := fun k =>
  if k = "payment_declined.json" then
    some (Json.obj [("success", Json.bool false), ("error_code", Json.str "card_declined")])
  else if k = "payment.json" then
    some (Json.obj [("success", Json.bool true)])
  else none

/-- C8 witness: the theorem applied to the concrete file system above with
an empty cache. -/
theorem c8_mock_resolution_witness :
    (get_response_data filesW [] "payment" none (some "declined")).1 =
      Json.obj [("success", Json.bool false), ("error_code", Json.str "card_declined")] :=
  (c8_mock_resolution filesW [] "payment" "declined"
      (fun key v h => by cases h)).1
    (Json.obj [("success", Json.bool false), ("error_code", Json.str "card_declined")])
    rfl rfl

/-! ## Heap lemmas for the copy-on-render property -/

/-- Zipping the components of a list of pairs rebuilds it. -/
theorem zip_fst_snd {α β : Type} : ∀ l : List (α × β),
    (l.map Prod.fst).zip (l.map Prod.snd) = l
  | [] => rfl
  | (k, v) :: rest => by simp [zip_fst_snd rest]

/-- Zipping against equally many keys keeps exactly the values. -/
theorem zip_snd_of_length {α β : Type} : ∀ (ks : List α) (vs : List β),
    ks.length = vs.length → (ks.zip vs).map Prod.snd = vs
  | [], [], _ => rfl
  | [], _ :: _, h => by cases h
  | _ :: _, [], h => by cases h
  | k :: ks, v :: vs, h => by
    simp only [List.zip_cons_cons, List.map_cons, List.cons.injEq, true_and]
    exact zip_snd_of_length ks vs (by simpa using h)

/-- Writing back the value already stored at an index is a no-op. -/
theorem set_same {α : Type} : ∀ (l : List α) (i : Nat) (x : α),
    l[i]? = some x → l.set i x = l
  | [], i, x, h => by simp at h
  | c :: t, 0, x, h => by
    simp only [List.getElem?_cons_zero, Option.some.injEq] at h
    simp [h]
  | c :: t, i + 1, x, h => by
    simp only [List.getElem?_cons_succ] at h
    simp [set_same t i x h]

/-- `h ⊑ h'`: every object present in `h` is present unchanged in `h'`. -/
def heapLe (h h' : Heap) : Prop :=
  ∀ (a : Nat) (o : JObj), h[a]? = some o → h'[a]? = some o

theorem heapLe_refl (h : Heap) : heapLe h h := fun _ _ ha => ha

theorem heapLe_trans {h₁ h₂ h₃ : Heap} (h12 : heapLe h₁ h₂) (h23 : heapLe h₂ h₃) :
    heapLe h₁ h₃ := fun a o ha => h23 a o (h12 a o ha)

theorem heapLe_append (h Δ : Heap) : heapLe h (h ++ Δ) := by
  intro a o ha
  have hlt : a < h.length := by
    by_contra hge
    rw [List.getElem?_eq_none (by omega)] at ha
    cases ha
  rw [List.getElem?_append, if_pos hlt]
  exact ha

theorem heapLe_length {h h' : Heap} (hle : heapLe h h') : h.length ≤ h'.length := by
  rcases Nat.eq_zero_or_pos h.length with hz | hpos
  · omega
  · have hlt : h.length - 1 < h.length := by omega
    have ha := hle (h.length - 1) h[h.length - 1]
      (List.getElem?_eq_getElem hlt)
    by_contra hlen
    rw [List.getElem?_eq_none (by omega)] at ha
    cases ha

/-- Objects of `h` keep their `getElem?` under a `heapLe` extension. -/
theorem heapLe_getElem? {h h' : Heap} (hle : heapLe h h') (i : Nat)
    (hi : i < h.length) : h'[i]? = h[i]? := by
  have := hle i h[i] (List.getElem?_eq_getElem hi)
  rw [this, List.getElem?_eq_getElem hi]

/-- Every object at an address `≥ L` holds references `≥ L` only. -/
def hiClosed (L : Nat) (h : Heap) : Prop :=
  ∀ (a : Nat) (o : JObj), h[a]? = some o → L ≤ a → ∀ b ∈ objRefs o, L ≤ b

/-- A heap is vacuously closed above its own length. -/
theorem hiClosed_length (h : Heap) : hiClosed h.length h := by
  intro a o ha hLa
  rw [List.getElem?_eq_none hLa] at ha
  cases ha

/-- Appending an object whose references are all `≥ L` preserves closure. -/
theorem hiClosed_append {L : Nat} {h : Heap} {o : JObj} (hcl : hiClosed L h)
    (href : ∀ b ∈ objRefs o, L ≤ b) : hiClosed L (h ++ [o]) := by
  intro a o' ha hLa
  rcases Nat.lt_trichotomy a h.length with hlt | heq | hgt
  · rw [List.getElem?_append, if_pos hlt] at ha
    exact hcl a o' ha hLa
  · subst heq
    rw [List.getElem?_concat_length] at ha
    simp only [Option.some.injEq] at ha
    subst ha
    exact href
  · rw [List.getElem?_eq_none (by simp; omega)] at ha
    cases ha

/-- Serialisation of a slot list is determined by serialisation of the
addressed objects. -/
theorem dumpSlots_congr (f f' : Nat) (h h' : Heap)
    (hP : ∀ (a : Nat) (t : Json), dumpAt f h a = some t → dumpAt f' h' a = some t) :
    ∀ (ss : List JSlot) (ts : List Json),
      dumpSlots f h ss = some ts → dumpSlots f' h' ss = some ts
  | [], ts, hd => by
    simp only [dumpSlots] at hd ⊢
    exact hd
  | .leaf l :: rest, ts, hd => by
    simp only [dumpSlots] at hd ⊢
    cases hr : dumpSlots f h rest with
    | none => rw [hr] at hd; cases hd
    | some ts₁ =>
      rw [hr] at hd
      rw [dumpSlots_congr f f' h h' hP rest ts₁ hr]
      exact hd
  | .ref b :: rest, ts, hd => by
    simp only [dumpSlots] at hd ⊢
    cases hb : dumpAt f h b with
    | none => rw [hb] at hd; cases hd
    | some t =>
      rw [hb] at hd
      rw [hP b t hb]
      cases hr : dumpSlots f h rest with
      | none => rw [hr] at hd; cases hd
      | some ts₁ =>
        rw [hr] at hd
        rw [dumpSlots_congr f f' h h' hP rest ts₁ hr]
        exact hd

/-- Serialisation only reads the heap, so it is stable under `heapLe`. -/
theorem dumpAt_mono_heap : ∀ (fuel : Nat) (h h' : Heap), heapLe h h' →
    ∀ (a : Nat) (t : Json), dumpAt fuel h a = some t → dumpAt fuel h' a = some t
  | 0, h, h', _, a, t, hd => by simp [dumpAt] at hd
  | fuel + 1, h, h', hle, a, t, hd => by
    simp only [dumpAt] at hd ⊢
    cases ho : h[a]? with
    | none =>
      simp only [ho] at hd
      exact Option.noConfusion hd
    | some o =>
      have ho' := hle a o ho
      cases o with
      | dict fields =>
        simp only [ho] at hd
        simp only [ho']
        cases hs : dumpSlots fuel h (fields.map Prod.snd) with
        | none =>
          simp only [hs] at hd
          exact Option.noConfusion hd
        | some ts =>
          simp only [hs] at hd
          simp only [dumpSlots_congr fuel fuel h h'
            (dumpAt_mono_heap fuel h h' hle) _ ts hs]
          exact hd
      | list items =>
        simp only [ho] at hd
        simp only [ho']
        cases hs : dumpSlots fuel h items with
        | none =>
          simp only [hs] at hd
          exact Option.noConfusion hd
        | some ts =>
          simp only [hs] at hd
          simp only [dumpSlots_congr fuel fuel h h'
            (dumpAt_mono_heap fuel h h' hle) _ ts hs]
          exact hd

/-- More fuel never changes a successful serialisation. -/
theorem dumpAt_mono_fuel : ∀ (fuel fuel' : Nat), fuel ≤ fuel' →
    ∀ (h : Heap) (a : Nat) (t : Json), dumpAt fuel h a = some t → dumpAt fuel' h a = some t
  | 0, _, _, h, a, t, hd => by simp [dumpAt] at hd
  | fuel + 1, 0, hle, h, a, t, hd => by omega
  | fuel + 1, fuel' + 1, hle, h, a, t, hd => by
    simp only [dumpAt] at hd ⊢
    cases ho : h[a]? with
    | none =>
      simp only [ho] at hd
      exact Option.noConfusion hd
    | some o =>
      cases o with
      | dict fields =>
        simp only [ho] at hd ⊢
        cases hs : dumpSlots fuel h (fields.map Prod.snd) with
        | none =>
          simp only [hs] at hd
          exact Option.noConfusion hd
        | some ts =>
          simp only [hs] at hd
          simp only [dumpSlots_congr fuel fuel' h h
            (fun a t => dumpAt_mono_fuel fuel fuel' (by omega) h a t) _ ts hs]
          exact hd
      | list items =>
        simp only [ho] at hd ⊢
        cases hs : dumpSlots fuel h items with
        | none =>
          simp only [hs] at hd
          exact Option.noConfusion hd
        | some ts =>
          simp only [hs] at hd
          simp only [dumpSlots_congr fuel fuel' h h
            (fun a t => dumpAt_mono_fuel fuel fuel' (by omega) h a t) _ ts hs]
          exact hd

/-- Slot serialisation, stable under `heapLe` and extra fuel. -/
theorem dumpSlot_mono (fuel fuel' : Nat) (hf : fuel ≤ fuel') (h h' : Heap)
    (hle : heapLe h h') (s : JSlot) (t : Json) (hd : dumpSlot fuel h s = some t) :
    dumpSlot fuel' h' s = some t := by
  cases s with
  | leaf l => simpa [dumpSlot] using hd
  | ref a =>
    simp only [dumpSlot] at hd ⊢
    exact dumpAt_mono_heap fuel' h h' hle a t
      (dumpAt_mono_fuel fuel fuel' hf h a t hd)

/-- Two successful serialisations of the same slot agree. -/
theorem dumpSlot_det (fuel fuel' : Nat) (h : Heap) (s : JSlot) (t t' : Json)
    (h₁ : dumpSlot fuel h s = some t) (h₂ : dumpSlot fuel' h s = some t') :
    t = t' := by
  rcases Nat.le_total fuel fuel' with hle | hle
  · have hmono := dumpSlot_mono fuel fuel' hle h h (heapLe_refl h) s t h₁
    rw [hmono] at h₂
    simpa using h₂
  · have hmono := dumpSlot_mono fuel' fuel hle h h (heapLe_refl h) s t' h₂
    rw [hmono] at h₁
    exact (by simpa using h₁ : t' = t).symm

mutual
/-- Allocation only appends: the old heap embeds in the new one. -/
theorem allocTree_le : ∀ (h : Heap) (t : Json), heapLe h (allocTree h t).1
  | h, .null => heapLe_refl h
  | h, .bool b => heapLe_refl h
  | h, .num n => heapLe_refl h
  | h, .str s => heapLe_refl h
  | h, .arr xs => by
    have h₁ := allocList_le h xs
    simp only [allocTree]
    rcases halloc : allocList h xs with ⟨h₁', ss⟩
    rw [halloc] at h₁
    exact heapLe_trans h₁ (heapLe_append h₁' [.list ss])
  | h, .obj kvs => by
    have h₁ := allocFields_le h kvs
    simp only [allocTree]
    rcases halloc : allocFields h kvs with ⟨h₁', fs⟩
    rw [halloc] at h₁
    exact heapLe_trans h₁ (heapLe_append h₁' [.dict fs])

theorem allocList_le : ∀ (h : Heap) (ts : List Json), heapLe h (allocList h ts).1
  | h, [] => heapLe_refl h
  | h, t :: ts => by
    have h₁ := allocTree_le h t
    simp only [allocList]
    rcases ha : allocTree h t with ⟨h₁', s⟩
    rw [ha] at h₁
    have h₂ := allocList_le h₁' ts
    rcases hb : allocList h₁' ts with ⟨h₂', ss⟩
    rw [hb] at h₂
    exact heapLe_trans h₁ h₂

theorem allocFields_le : ∀ (h : Heap) (kts : List (String × Json)),
    heapLe h (allocFields h kts).1
  | h, [] => heapLe_refl h
  | h, (k, t) :: kts => by
    have h₁ := allocTree_le h t
    simp only [allocFields]
    rcases ha : allocTree h t with ⟨h₁', s⟩
    rw [ha] at h₁
    have h₂ := allocFields_le h₁' kts
    rcases hb : allocFields h₁' kts with ⟨h₂', fs⟩
    rw [hb] at h₂
    exact heapLe_trans h₁ h₂
end

mutual
/-- Freshness: allocation preserves closure above any `L ≤ h.length`, and a
container root is allocated at a fresh address `≥ h.length`. -/
theorem allocTree_fresh : ∀ (h : Heap) (t : Json) (L : Nat), L ≤ h.length →
    hiClosed L h →
    hiClosed L (allocTree h t).1 ∧ (∀ b, (allocTree h t).2 = .ref b → h.length ≤ b)
  | h, .null, L, _, hcl => ⟨hcl, fun b hb => by cases hb⟩
  | h, .bool _, L, _, hcl => ⟨hcl, fun b hb => by cases hb⟩
  | h, .num _, L, _, hcl => ⟨hcl, fun b hb => by cases hb⟩
  | h, .str _, L, _, hcl => ⟨hcl, fun b hb => by cases hb⟩
  | h, .arr xs, L, hL, hcl => by
    have hfresh := allocList_fresh h xs L hL hcl
    have hle := allocList_le h xs
    simp only [allocTree]
    rcases ha : allocList h xs with ⟨h₁, ss⟩
    rw [ha] at hfresh hle
    refine ⟨?_, ?_⟩
    · exact hiClosed_append hfresh.1 (by
        simp only [objRefs]
        intro b hb
        exact le_trans hL (hfresh.2 b hb))
    · intro b hb
      simp only [JSlot.ref.injEq] at hb
      subst hb
      exact heapLe_length hle
  | h, .obj kvs, L, hL, hcl => by
    have hfresh := allocFields_fresh h kvs L hL hcl
    have hle := allocFields_le h kvs
    simp only [allocTree]
    rcases ha : allocFields h kvs with ⟨h₁, fs⟩
    rw [ha] at hfresh hle
    refine ⟨?_, ?_⟩
    · exact hiClosed_append hfresh.1 (by
        simp only [objRefs]
        intro b hb
        exact le_trans hL (hfresh.2 b hb))
    · intro b hb
      simp only [JSlot.ref.injEq] at hb
      subst hb
      exact heapLe_length hle

theorem allocList_fresh : ∀ (h : Heap) (ts : List Json) (L : Nat), L ≤ h.length →
    hiClosed L h →
    hiClosed L (allocList h ts).1 ∧
    (∀ b ∈ slotsRefs (allocList h ts).2, h.length ≤ b)
  | h, [], L, _, hcl => ⟨hcl, fun b hb => by cases hb⟩
  | h, t :: ts, L, hL, hcl => by
    have h₁fresh := allocTree_fresh h t L hL hcl
    have h₁le := allocTree_le h t
    simp only [allocList]
    rcases ha : allocTree h t with ⟨h₁, s⟩
    rw [ha] at h₁fresh h₁le
    have h₂fresh := allocList_fresh h₁ ts L (le_trans hL (heapLe_length h₁le))
      h₁fresh.1
    have h₂le := allocList_le h₁ ts
    rcases hb : allocList h₁ ts with ⟨h₂, ss⟩
    rw [hb] at h₂fresh h₂le
    refine ⟨h₂fresh.1, ?_⟩
    intro b hbmem
    cases s with
    | ref r =>
      simp only [slotsRefs, List.mem_cons] at hbmem
      rcases hbmem with hbr | hbss
      · subst hbr
        exact h₁fresh.2 b rfl
      · exact le_trans (heapLe_length h₁le) (h₂fresh.2 b hbss)
    | leaf l =>
      simp only [slotsRefs] at hbmem
      exact le_trans (heapLe_length h₁le) (h₂fresh.2 b hbmem)

theorem allocFields_fresh : ∀ (h : Heap) (kts : List (String × Json)) (L : Nat),
    L ≤ h.length → hiClosed L h →
    hiClosed L (allocFields h kts).1 ∧
    (∀ b ∈ slotsRefs ((allocFields h kts).2.map Prod.snd), h.length ≤ b)
  | h, [], L, _, hcl => ⟨hcl, fun b hb => by cases hb⟩
  | h, (k, t) :: kts, L, hL, hcl => by
    have h₁fresh := allocTree_fresh h t L hL hcl
    have h₁le := allocTree_le h t
    simp only [allocFields]
    rcases ha : allocTree h t with ⟨h₁, s⟩
    rw [ha] at h₁fresh h₁le
    have h₂fresh := allocFields_fresh h₁ kts L (le_trans hL (heapLe_length h₁le))
      h₁fresh.1
    have h₂le := allocFields_le h₁ kts
    rcases hb : allocFields h₁ kts with ⟨h₂, fs⟩
    rw [hb] at h₂fresh h₂le
    refine ⟨h₂fresh.1, ?_⟩
    intro b hbmem
    cases s with
    | ref r =>
      simp only [List.map_cons, slotsRefs, List.mem_cons] at hbmem
      rcases hbmem with hbr | hbss
      · subst hbr
        exact h₁fresh.2 b rfl
      · exact le_trans (heapLe_length h₁le) (h₂fresh.2 b hbss)
    | leaf l =>
      simp only [List.map_cons, slotsRefs] at hbmem
      exact le_trans (heapLe_length h₁le) (h₂fresh.2 b hbmem)
end

mutual
/-- A freshly allocated graph serialises back to the tree it was built
from, also in any further extension of the heap. -/
theorem allocTree_dump : ∀ (h : Heap) (t : Json) (h₂ : Heap),
    heapLe (allocTree h t).1 h₂ →
    ∃ F, dumpSlot F h₂ (allocTree h t).2 = some t
  | h, .null, h₂, _ => ⟨0, rfl⟩
  | h, .bool b, h₂, _ => ⟨0, rfl⟩
  | h, .num n, h₂, _ => ⟨0, rfl⟩
  | h, .str s, h₂, _ => ⟨0, rfl⟩
  | h, .arr xs, h₂, hle => by
    simp only [allocTree] at hle ⊢
    rcases ha : allocList h xs with ⟨h₁, ss⟩
    rw [ha] at hle
    have hdump := allocList_dump h xs h₂ (by
      rw [ha]
      exact heapLe_trans (heapLe_append h₁ [.list ss]) hle)
    rw [ha] at hdump
    obtain ⟨F, hF⟩ := hdump
    refine ⟨F + 1, ?_⟩
    have hobj : h₂[h₁.length]? = some (.list ss) :=
      hle h₁.length (.list ss) (List.getElem?_concat_length h₁ (.list ss))
    simp only [dumpSlot, dumpAt, hobj, hF]
  | h, .obj kvs, h₂, hle => by
    simp only [allocTree] at hle ⊢
    rcases ha : allocFields h kvs with ⟨h₁, fs⟩
    rw [ha] at hle
    have hdump := allocFields_dump h kvs h₂ (by
      rw [ha]
      exact heapLe_trans (heapLe_append h₁ [.dict fs]) hle)
    rw [ha] at hdump
    obtain ⟨F, hF, hkeys⟩ := hdump
    refine ⟨F + 1, ?_⟩
    have hobj : h₂[h₁.length]? = some (.dict fs) :=
      hle h₁.length (.dict fs) (List.getElem?_concat_length h₁ (.dict fs))
    simp only [dumpSlot, dumpAt, hobj, hF, hkeys, zip_fst_snd]

theorem allocList_dump : ∀ (h : Heap) (ts : List Json) (h₂ : Heap),
    heapLe (allocList h ts).1 h₂ →
    ∃ F, dumpSlots F h₂ (allocList h ts).2 = some ts
  | h, [], h₂, _ => ⟨0, by simp [allocList, dumpSlots]⟩
  | h, t :: ts, h₂, hle => by
    simp only [allocList] at hle ⊢
    rcases ha : allocTree h t with ⟨h₁, s⟩
    rcases hb : allocList h₁ ts with ⟨h₂', ss⟩
    rw [ha, hb] at hle
    simp only at hle
    have hsd := allocTree_dump h t h₂ (by
      rw [ha]
      have : heapLe h₁ h₂' := by
        have := allocList_le h₁ ts
        rw [hb] at this
        exact this
      exact heapLe_trans this hle)
    rw [ha] at hsd
    obtain ⟨F₁, hF₁⟩ := hsd
    have hrd := allocList_dump h₁ ts h₂ (by rw [hb]; exact hle)
    rw [hb] at hrd
    obtain ⟨F₂, hF₂⟩ := hrd
    refine ⟨F₁ + F₂, ?_⟩
    have hF₁' : dumpSlot (F₁ + F₂) h₂ s = some t :=
      dumpSlot_mono F₁ (F₁ + F₂) (by omega) h₂ h₂ (heapLe_refl h₂) s t hF₁
    have hF₂' : dumpSlots (F₁ + F₂) h₂ ss = some ts :=
      dumpSlots_congr F₂ (F₁ + F₂) h₂ h₂
        (fun a t' => dumpAt_mono_fuel F₂ (F₁ + F₂) (by omega) h₂ a t') ss ts hF₂
    cases s with
    | leaf l =>
      simp only [dumpSlot] at hF₁'
      simp only [dumpSlots, hF₂']
      simp only [Option.some.injEq] at hF₁' ⊢
      rw [hF₁']
    | ref b =>
      simp only [dumpSlot] at hF₁'
      simp only [dumpSlots, hF₁', hF₂']

theorem allocFields_dump : ∀ (h : Heap) (kts : List (String × Json)) (h₂ : Heap),
    heapLe (allocFields h kts).1 h₂ →
    ∃ F, dumpSlots F h₂ ((allocFields h kts).2.map Prod.snd) = some (kts.map Prod.snd)
      ∧ (allocFields h kts).2.map Prod.fst = kts.map Prod.fst
  | h, [], h₂, _ => ⟨0, by simp [allocFields, dumpSlots], by simp [allocFields]⟩
  | h, (k, t) :: kts, h₂, hle => by
    simp only [allocFields] at hle ⊢
    rcases ha : allocTree h t with ⟨h₁, s⟩
    rcases hb : allocFields h₁ kts with ⟨h₂', fs⟩
    rw [ha, hb] at hle
    simp only at hle
    have hsd := allocTree_dump h t h₂ (by
      rw [ha]
      have hmid : heapLe h₁ h₂' := by
        have := allocFields_le h₁ kts
        rw [hb] at this
        exact this
      exact heapLe_trans hmid hle)
    rw [ha] at hsd
    obtain ⟨F₁, hF₁⟩ := hsd
    have hrd := allocFields_dump h₁ kts h₂ (by rw [hb]; exact hle)
    rw [hb] at hrd
    obtain ⟨F₂, hF₂, hkeys⟩ := hrd
    refine ⟨F₁ + F₂, ?_, ?_⟩
    · have hF₁' : dumpSlot (F₁ + F₂) h₂ s = some t :=
        dumpSlot_mono F₁ (F₁ + F₂) (by omega) h₂ h₂ (heapLe_refl h₂) s t hF₁
      have hF₂' : dumpSlots (F₁ + F₂) h₂ (fs.map Prod.snd) = some (kts.map Prod.snd) :=
        dumpSlots_congr F₂ (F₁ + F₂) h₂ h₂
          (fun a t' => dumpAt_mono_fuel F₂ (F₁ + F₂) (by omega) h₂ a t') _ _ hF₂
      cases s with
      | leaf l =>
        simp only [dumpSlot] at hF₁'
        simp only [List.map_cons, dumpSlots, hF₂']
        simp only [Option.some.injEq] at hF₁' ⊢
        rw [hF₁']
      | ref b =>
        simp only [dumpSlot] at hF₁'
        simp only [List.map_cons, dumpSlots, hF₁', hF₂']
    · simp only [List.map_cons, hkeys]
end

mutual
/-- Frame property of in-place substitution: rewriting the object graph at
an address `≥ L` of an `L`-closed heap leaves every address `< L`
untouched, preserves the heap length and keeps the heap `L`-closed. -/
theorem replaceAt_frame (env : DynEnv) :
    ∀ (fuel L : Nat) (h : Heap) (st a : Nat) (h' : Heap) (st' : Nat),
      hiClosed L h → L ≤ a → replaceAt env fuel h st a = some (h', st') →
      (∀ i, i < L → h'[i]? = h[i]?) ∧ h'.length = h.length ∧ hiClosed L h'
  | 0, L, h, st, a, h', st' => by
    intro _ _ hrep
    simp [replaceAt] at hrep
  | fuel + 1, L, h, st, a, h', st' => by
    intro hcl hLa hrep
    simp only [replaceAt] at hrep
    cases ho : h[a]? with
    | none =>
      simp only [ho] at hrep
      exact Option.noConfusion hrep
    | some o =>
      have halt : a < h.length := by
        by_contra hge
        rw [List.getElem?_eq_none (by omega)] at ho
        cases ho
      cases o with
      | dict fields =>
        simp only [ho] at hrep
        cases hrs : replaceSlots env fuel h st (fields.map Prod.snd) with
        | none =>
          simp only [hrs] at hrep
          exact Option.noConfusion hrep
        | some out =>
          rcases out with ⟨h₁, st₁, ss₁⟩
          simp only [hrs, Option.some.injEq, Prod.mk.injEq] at hrep
          obtain ⟨hh', hst'⟩ := hrep
          subst hh'
          subst hst'
          have hrefs : ∀ b ∈ slotsRefs (fields.map Prod.snd), L ≤ b :=
            hcl a (.dict fields) ho hLa
          obtain ⟨hpre, hlen, hcl₁, hrefs₁, hsslen⟩ :=
            replaceSlots_frame env fuel L h st (fields.map Prod.snd) h₁ st₁ ss₁
              hcl hrefs hrs
          refine ⟨?_, ?_, ?_⟩
          · intro i hi
            rw [List.getElem?_set_ne (by omega)]
            exact hpre i hi
          · rw [List.length_set]
            exact hlen
          · intro a' o' ha' hLa'
            rcases eq_or_ne a' a with heq | hne
            · subst heq
              rw [List.getElem?_set_self (by omega)] at ha'
              simp only [Option.some.injEq] at ha'
              subst ha'
              simp only [objRefs]
              rw [zip_snd_of_length _ _ (by
                rw [List.length_map, hsslen, List.length_map])]
              rw [hrefs₁]
              exact hrefs
            · rw [List.getElem?_set_ne (by omega)] at ha'
              exact hcl₁ a' o' ha' hLa'
      | list items =>
        simp only [ho] at hrep
        cases hrs : replaceSlots env fuel h st items with
        | none =>
          simp only [hrs] at hrep
          exact Option.noConfusion hrep
        | some out =>
          rcases out with ⟨h₁, st₁, ss₁⟩
          simp only [hrs, Option.some.injEq, Prod.mk.injEq] at hrep
          obtain ⟨hh', hst'⟩ := hrep
          subst hh'
          subst hst'
          have hrefs : ∀ b ∈ slotsRefs items, L ≤ b :=
            hcl a (.list items) ho hLa
          obtain ⟨hpre, hlen, hcl₁, hrefs₁, hsslen⟩ :=
            replaceSlots_frame env fuel L h st items h₁ st₁ ss₁ hcl hrefs hrs
          refine ⟨?_, ?_, ?_⟩
          · intro i hi
            rw [List.getElem?_set_ne (by omega)]
            exact hpre i hi
          · rw [List.length_set]
            exact hlen
          · intro a' o' ha' hLa'
            rcases eq_or_ne a' a with heq | hne
            · subst heq
              rw [List.getElem?_set_self (by omega)] at ha'
              simp only [Option.some.injEq] at ha'
              subst ha'
              simp only [objRefs]
              rw [hrefs₁]
              exact hrefs
            · rw [List.getElem?_set_ne (by omega)] at ha'
              exact hcl₁ a' o' ha' hLa'
termination_by fuel _ _ _ _ _ _ => (fuel, 0)

/-- Frame property for one slot list. -/
theorem replaceSlots_frame (env : DynEnv) :
    ∀ (fuel L : Nat) (h : Heap) (st : Nat) (ss : List JSlot) (h' : Heap)
      (st' : Nat) (ss' : List JSlot),
      hiClosed L h → (∀ b ∈ slotsRefs ss, L ≤ b) →
      replaceSlots env fuel h st ss = some (h', st', ss') →
      (∀ i, i < L → h'[i]? = h[i]?) ∧ h'.length = h.length ∧ hiClosed L h' ∧
      slotsRefs ss' = slotsRefs ss ∧ ss'.length = ss.length
  | fuel, L, h, st, [], h', st', ss' => by
    intro hcl _ hrep
    simp only [replaceSlots, Option.some.injEq, Prod.mk.injEq] at hrep
    obtain ⟨hh, hst, hss⟩ := hrep
    subst hh
    subst hst
    subst hss
    exact ⟨fun _ _ => rfl, rfl, hcl, rfl, rfl⟩
  | fuel, L, h, st, .ref b :: rest, h', st', ss' => by
    intro hcl hrefs hrep
    simp only [replaceSlots] at hrep
    cases hra : replaceAt env fuel h st b with
    | none =>
      simp only [hra] at hrep
      exact Option.noConfusion hrep
    | some out₁ =>
      rcases out₁ with ⟨h₁, st₁⟩
      simp only [hra] at hrep
      cases hrs : replaceSlots env fuel h₁ st₁ rest with
      | none =>
        simp only [hrs] at hrep
        exact Option.noConfusion hrep
      | some out₂ =>
        rcases out₂ with ⟨h₂, st₂, rest₂⟩
        simp only [hrs, Option.some.injEq, Prod.mk.injEq] at hrep
        obtain ⟨hh, hst, hss⟩ := hrep
        subst hh
        subst hst
        subst hss
        have hLb : L ≤ b := hrefs b (by simp [slotsRefs])
        obtain ⟨hpre₁, hlen₁, hcl₁⟩ :=
          replaceAt_frame env fuel L h st b h₁ st₁ hcl hLb hra
        have hrefs₁ : ∀ c ∈ slotsRefs rest, L ≤ c := fun c hc =>
          hrefs c (by simp [slotsRefs, hc])
        obtain ⟨hpre₂, hlen₂, hcl₂, hrefs₂, hlen₂'⟩ :=
          replaceSlots_frame env fuel L h₁ st₁ rest h₂ st₂ rest₂ hcl₁ hrefs₁ hrs
        refine ⟨?_, ?_, hcl₂, ?_, ?_⟩
        · intro i hi
          rw [hpre₂ i hi, hpre₁ i hi]
        · rw [hlen₂, hlen₁]
        · simp [slotsRefs, hrefs₂]
        · simp [hlen₂']
  | fuel, L, h, st, .leaf (.str s₀) :: rest, h', st', ss' => by
    intro hcl hrefs hrep
    simp only [replaceSlots] at hrep
    cases hstr : replaceString env st s₀ with
    | none =>
      simp only [hstr] at hrep
      exact Option.noConfusion hrep
    | some out₁ =>
      rcases out₁ with ⟨s₁, st₁⟩
      simp only [hstr] at hrep
      cases hrs : replaceSlots env fuel h st₁ rest with
      | none =>
        simp only [hrs] at hrep
        exact Option.noConfusion hrep
      | some out₂ =>
        rcases out₂ with ⟨h₂, st₂, rest₂⟩
        simp only [hrs, Option.some.injEq, Prod.mk.injEq] at hrep
        obtain ⟨hh, hst, hss⟩ := hrep
        subst hh
        subst hst
        subst hss
        have hrefs₁ : ∀ c ∈ slotsRefs rest, L ≤ c := fun c hc =>
          hrefs c (by simp [slotsRefs, hc])
        obtain ⟨hpre₂, hlen₂, hcl₂, hrefs₂, hlen₂'⟩ :=
          replaceSlots_frame env fuel L h st₁ rest h₂ st₂ rest₂ hcl hrefs₁ hrs
        exact ⟨hpre₂, hlen₂, hcl₂, by simp [slotsRefs, hrefs₂], by simp [hlen₂']⟩
  | fuel, L, h, st, .leaf .null :: rest, h', st', ss' => by
    intro hcl hrefs hrep
    simp only [replaceSlots] at hrep
    cases hrs : replaceSlots env fuel h st rest with
    | none =>
      simp only [hrs] at hrep
      exact Option.noConfusion hrep
    | some out₂ =>
      rcases out₂ with ⟨h₂, st₂, rest₂⟩
      simp only [hrs, Option.some.injEq, Prod.mk.injEq] at hrep
      obtain ⟨hh, hst, hss⟩ := hrep
      subst hh
      subst hst
      subst hss
      have hrefs₁ : ∀ c ∈ slotsRefs rest, L ≤ c := fun c hc =>
        hrefs c (by simp [slotsRefs, hc])
      obtain ⟨hpre₂, hlen₂, hcl₂, hrefs₂, hlen₂'⟩ :=
        replaceSlots_frame env fuel L h st rest h₂ st₂ rest₂ hcl hrefs₁ hrs
      exact ⟨hpre₂, hlen₂, hcl₂, by simp [slotsRefs, hrefs₂], by simp [hlen₂']⟩
  | fuel, L, h, st, .leaf (.bool b₀) :: rest, h', st', ss' => by
    intro hcl hrefs hrep
    simp only [replaceSlots] at hrep
    cases hrs : replaceSlots env fuel h st rest with
    | none =>
      simp only [hrs] at hrep
      exact Option.noConfusion hrep
    | some out₂ =>
      rcases out₂ with ⟨h₂, st₂, rest₂⟩
      simp only [hrs, Option.some.injEq, Prod.mk.injEq] at hrep
      obtain ⟨hh, hst, hss⟩ := hrep
      subst hh
      subst hst
      subst hss
      have hrefs₁ : ∀ c ∈ slotsRefs rest, L ≤ c := fun c hc =>
        hrefs c (by simp [slotsRefs, hc])
      obtain ⟨hpre₂, hlen₂, hcl₂, hrefs₂, hlen₂'⟩ :=
        replaceSlots_frame env fuel L h st rest h₂ st₂ rest₂ hcl hrefs₁ hrs
      exact ⟨hpre₂, hlen₂, hcl₂, by simp [slotsRefs, hrefs₂], by simp [hlen₂']⟩
  | fuel, L, h, st, .leaf (.num n₀) :: rest, h', st', ss' => by
    intro hcl hrefs hrep
    simp only [replaceSlots] at hrep
    cases hrs : replaceSlots env fuel h st rest with
    | none =>
      simp only [hrs] at hrep
      exact Option.noConfusion hrep
    | some out₂ =>
      rcases out₂ with ⟨h₂, st₂, rest₂⟩
      simp only [hrs, Option.some.injEq, Prod.mk.injEq] at hrep
      obtain ⟨hh, hst, hss⟩ := hrep
      subst hh
      subst hst
      subst hss
      have hrefs₁ : ∀ c ∈ slotsRefs rest, L ≤ c := fun c hc =>
        hrefs c (by simp [slotsRefs, hc])
      obtain ⟨hpre₂, hlen₂, hcl₂, hrefs₂, hlen₂'⟩ :=
        replaceSlots_frame env fuel L h st rest h₂ st₂ rest₂ hcl hrefs₁ hrs
      exact ⟨hpre₂, hlen₂, hcl₂, by simp [slotsRefs, hrefs₂], by simp [hlen₂']⟩
termination_by fuel _ _ _ ss _ _ _ => (fuel, ss.length + 1)
end

/-- A string left untouched by `_replace_placeholder_string`: none of the
three exact tokens, and not a well-formed `$RANDOM_INT(a,b)$...` prefix. -/
def inertStr (s : String) : Bool :=
  !(s == "$TIMESTAMP$") && !(s == "$ORDER_ID$") && !(s == "$TRANSACTION_ID$") &&
    (!(strStartsWith s "$RANDOM_") || (parseRandomInt s).isNone)

/-- Substitution is the identity on inert strings, with no effect consumed. -/
theorem replaceString_inert (env : DynEnv) (st : Nat) (s : String)
    (h : inertStr s = true) : replaceString env st s = some (s, st) := by
  have h₁ : ¬(s = "$TIMESTAMP$") := by
    intro he
    subst he
    simp [inertStr] at h
  have h₂ : ¬(s = "$ORDER_ID$") := by
    intro he
    subst he
    simp [inertStr] at h
  have h₃ : ¬(s = "$TRANSACTION_ID$") := by
    intro he
    subst he
    simp [inertStr] at h
  unfold replaceString
  rw [if_neg h₁, if_neg h₂, if_neg h₃]
  cases hsw : strStartsWith s "$RANDOM_" with
  | false => rw [if_neg (by simp [hsw])]
  | true =>
    rw [if_pos (by simp [hsw])]
    have hpn : parseRandomInt s = none := by
      simp only [inertStr, hsw, Bool.and_eq_true, Bool.or_eq_true] at h
      rcases h.2 with hfalse | hnone
      · simp at hfalse
      · exact Option.isNone_iff_eq_none.mp hnone
    rw [hpn]

mutual
/-- No string leaf of the tree is a placeholder. -/
def jsonInert : Json → Bool
  | .null => true
  | .bool _ => true
  | .num _ => true
  | .str s => inertStr s
  | .arr xs => jsonInertList xs
  | .obj kvs => jsonInertFields kvs

/-- `jsonInert` on every element. -/
def jsonInertList : List Json → Bool
  | [] => true
  | t :: ts => jsonInert t && jsonInertList ts

/-- `jsonInert` on every value. -/
def jsonInertFields : List (String × Json) → Bool
  | [] => true
  | (_, t) :: kts => jsonInert t && jsonInertFields kts
end

/-- Inertness of zipped fields is inertness of the values. -/
theorem jsonInertFields_zip : ∀ (ks : List String) (ts : List Json),
    ks.length = ts.length → jsonInertFields (ks.zip ts) = jsonInertList ts
  | [], [], _ => rfl
  | [], _ :: _, h => by simp at h
  | _ :: _, [], h => by simp at h
  | k :: ks, t :: ts, h => by
    have ih := jsonInertFields_zip ks ts (by simpa using h)
    simp only [List.zip] at ih
    simp only [List.zip_cons_cons, jsonInertFields, jsonInertList, List.zip, ih]

/-- Serialisation preserves the slot count. -/
theorem dumpSlots_length : ∀ (f : Nat) (h : Heap) (ss : List JSlot) (ts : List Json),
    dumpSlots f h ss = some ts → ts.length = ss.length
  | f, h, [], ts, hd => by
    simp only [dumpSlots, Option.some.injEq] at hd
    subst hd
    rfl
  | f, h, .leaf l :: rest, ts, hd => by
    simp only [dumpSlots] at hd
    cases hr : dumpSlots f h rest with
    | none =>
      simp only [hr] at hd
      exact Option.noConfusion hd
    | some ts₁ =>
      simp only [hr, Option.some.injEq] at hd
      subst hd
      simp [dumpSlots_length f h rest ts₁ hr]
  | f, h, .ref b :: rest, ts, hd => by
    simp only [dumpSlots] at hd
    cases hb : dumpAt f h b with
    | none =>
      simp only [hb] at hd
      exact Option.noConfusion hd
    | some t =>
      simp only [hb] at hd
      cases hr : dumpSlots f h rest with
      | none =>
        simp only [hr] at hd
        exact Option.noConfusion hd
      | some ts₁ =>
        simp only [hr, Option.some.injEq] at hd
        subst hd
        simp [dumpSlots_length f h rest ts₁ hr]

mutual
/-- In-place substitution is the identity on a graph whose serialisation has
no placeholder leaves. -/
theorem replaceAt_inert (env : DynEnv) :
    ∀ (fuel F : Nat) (h : Heap) (st a : Nat) (h' : Heap) (st' : Nat) (t : Json),
      replaceAt env fuel h st a = some (h', st') → dumpAt F h a = some t →
      jsonInert t = true → h' = h ∧ st' = st
  | 0, F, h, st, a, h', st', t => by
    intro hrep _ _
    simp [replaceAt] at hrep
  | fuel + 1, 0, h, st, a, h', st', t => by
    intro _ hdump _
    simp [dumpAt] at hdump
  | fuel + 1, F + 1, h, st, a, h', st', t => by
    intro hrep hdump hinert
    simp only [replaceAt] at hrep
    simp only [dumpAt] at hdump
    cases ho : h[a]? with
    | none =>
      simp only [ho] at hrep
      exact Option.noConfusion hrep
    | some o =>
      cases o with
      | dict fields =>
        simp only [ho] at hrep hdump
        cases hds : dumpSlots F h (fields.map Prod.snd) with
        | none =>
          simp only [hds] at hdump
          exact Option.noConfusion hdump
        | some ts₀ =>
          simp only [hds, Option.some.injEq] at hdump
          subst hdump
          cases hrs : replaceSlots env fuel h st (fields.map Prod.snd) with
          | none =>
            simp only [hrs] at hrep
            exact Option.noConfusion hrep
          | some out =>
            rcases out with ⟨h₁, st₁, ss₁⟩
            simp only [hrs, Option.some.injEq, Prod.mk.injEq] at hrep
            obtain ⟨hh', hst'⟩ := hrep
            have hil : jsonInertList ts₀ = true := by
              rw [jsonInert] at hinert
              rw [jsonInertFields_zip _ _ (by
                rw [List.length_map,
                  dumpSlots_length F h (fields.map Prod.snd) ts₀ hds,
                  List.length_map])] at hinert
              exact hinert
            obtain ⟨hh₁, hst₁, hss₁⟩ :=
              replaceSlots_inert env fuel F h st (fields.map Prod.snd) h₁ st₁
                ss₁ ts₀ hrs hds hil
            refine ⟨?_, by rw [← hst', hst₁]⟩
            rw [← hh', hh₁, hss₁, zip_fst_snd fields]
            exact set_same h a (.dict fields) ho
      | list items =>
        simp only [ho] at hrep hdump
        cases hds : dumpSlots F h items with
        | none =>
          simp only [hds] at hdump
          exact Option.noConfusion hdump
        | some ts₀ =>
          simp only [hds, Option.some.injEq] at hdump
          subst hdump
          cases hrs : replaceSlots env fuel h st items with
          | none =>
            simp only [hrs] at hrep
            exact Option.noConfusion hrep
          | some out =>
            rcases out with ⟨h₁, st₁, ss₁⟩
            simp only [hrs, Option.some.injEq, Prod.mk.injEq] at hrep
            obtain ⟨hh', hst'⟩ := hrep
            have hil : jsonInertList ts₀ = true := by
              rw [jsonInert] at hinert
              exact hinert
            obtain ⟨hh₁, hst₁, hss₁⟩ :=
              replaceSlots_inert env fuel F h st items h₁ st₁ ss₁ ts₀ hrs hds hil
            refine ⟨?_, by rw [← hst', hst₁]⟩
            rw [← hh', hh₁, hss₁]
            exact set_same h a (.list items) ho
termination_by fuel _ _ _ _ _ _ _ => (fuel, 0)

/-- Slot-list version of `replaceAt_inert`. -/
theorem replaceSlots_inert (env : DynEnv) :
    ∀ (fuel F : Nat) (h : Heap) (st : Nat) (ss : List JSlot) (h' : Heap)
      (st' : Nat) (ss' : List JSlot) (ts : List Json),
      replaceSlots env fuel h st ss = some (h', st', ss') →
      dumpSlots F h ss = some ts → jsonInertList ts = true →
      h' = h ∧ st' = st ∧ ss' = ss
  | fuel, F, h, st, [], h', st', ss', ts => by
    intro hrep _ _
    simp only [replaceSlots, Option.some.injEq, Prod.mk.injEq] at hrep
    obtain ⟨hh, hst, hss⟩ := hrep
    exact ⟨hh.symm, hst.symm, hss.symm⟩
  | fuel, F, h, st, .ref b :: rest, h', st', ss', ts => by
    intro hrep hdump hinert
    simp only [replaceSlots] at hrep
    simp only [dumpSlots] at hdump
    cases hb : dumpAt F h b with
    | none =>
      simp only [hb] at hdump
      exact Option.noConfusion hdump
    | some t₀ =>
      simp only [hb] at hdump
      cases hr : dumpSlots F h rest with
      | none =>
        simp only [hr] at hdump
        exact Option.noConfusion hdump
      | some ts₀ =>
        simp only [hr, Option.some.injEq] at hdump
        subst hdump
        simp only [jsonInertList, Bool.and_eq_true] at hinert
        cases hra : replaceAt env fuel h st b with
        | none =>
          simp only [hra] at hrep
          exact Option.noConfusion hrep
        | some out₁ =>
          rcases out₁ with ⟨h₁, st₁⟩
          simp only [hra] at hrep
          obtain ⟨hh₁, hst₁⟩ :=
            replaceAt_inert env fuel F h st b h₁ st₁ t₀ hra hb hinert.1
          rw [hh₁, hst₁] at hrep
          cases hrs : replaceSlots env fuel h st rest with
          | none =>
            simp only [hrs] at hrep
            exact Option.noConfusion hrep
          | some out₂ =>
            rcases out₂ with ⟨h₂, st₂, rest₂⟩
            simp only [hrs, Option.some.injEq, Prod.mk.injEq] at hrep
            obtain ⟨hh, hst, hss⟩ := hrep
            obtain ⟨hh₂, hst₂, hrest₂⟩ :=
              replaceSlots_inert env fuel F h st rest h₂ st₂ rest₂ ts₀ hrs hr
                hinert.2
            subst hh₂
            subst hst₂
            subst hrest₂
            exact ⟨hh.symm, hst.symm, by rw [← hss]⟩
  | fuel, F, h, st, .leaf (.str s₀) :: rest, h', st', ss', ts => by
    intro hrep hdump hinert
    simp only [replaceSlots] at hrep
    simp only [dumpSlots] at hdump
    cases hr : dumpSlots F h rest with
    | none =>
      simp only [hr] at hdump
      exact Option.noConfusion hdump
    | some ts₀ =>
      simp only [hr, Option.some.injEq] at hdump
      subst hdump
      simp only [leafToJson, jsonInertList, Bool.and_eq_true, jsonInert] at hinert
      rw [replaceString_inert env st s₀ hinert.1] at hrep
      cases hrs : replaceSlots env fuel h st rest with
      | none =>
        simp only [hrs] at hrep
        exact Option.noConfusion hrep
      | some out₂ =>
        rcases out₂ with ⟨h₂, st₂, rest₂⟩
        simp only [hrs, Option.some.injEq, Prod.mk.injEq] at hrep
        obtain ⟨hh, hst, hss⟩ := hrep
        obtain ⟨hh₂, hst₂, hrest₂⟩ :=
          replaceSlots_inert env fuel F h st rest h₂ st₂ rest₂ ts₀ hrs hr
            hinert.2
        subst hh₂
        subst hst₂
        subst hrest₂
        exact ⟨hh.symm, hst.symm, by rw [← hss]⟩
  | fuel, F, h, st, .leaf .null :: rest, h', st', ss', ts => by
    intro hrep hdump hinert
    simp only [replaceSlots] at hrep
    simp only [dumpSlots] at hdump
    cases hr : dumpSlots F h rest with
    | none =>
      simp only [hr] at hdump
      exact Option.noConfusion hdump
    | some ts₀ =>
      simp only [hr, Option.some.injEq] at hdump
      subst hdump
      simp only [jsonInertList, Bool.and_eq_true] at hinert
      cases hrs : replaceSlots env fuel h st rest with
      | none =>
        simp only [hrs] at hrep
        exact Option.noConfusion hrep
      | some out₂ =>
        rcases out₂ with ⟨h₂, st₂, rest₂⟩
        simp only [hrs, Option.some.injEq, Prod.mk.injEq] at hrep
        obtain ⟨hh, hst, hss⟩ := hrep
        obtain ⟨hh₂, hst₂, hrest₂⟩ :=
          replaceSlots_inert env fuel F h st rest h₂ st₂ rest₂ ts₀ hrs hr
            hinert.2
        subst hh₂
        subst hst₂
        subst hrest₂
        exact ⟨hh.symm, hst.symm, by rw [← hss]⟩
  | fuel, F, h, st, .leaf (.bool b₀) :: rest, h', st', ss', ts => by
    intro hrep hdump hinert
    simp only [replaceSlots] at hrep
    simp only [dumpSlots] at hdump
    cases hr : dumpSlots F h rest with
    | none =>
      simp only [hr] at hdump
      exact Option.noConfusion hdump
    | some ts₀ =>
      simp only [hr, Option.some.injEq] at hdump
      subst hdump
      simp only [jsonInertList, Bool.and_eq_true] at hinert
      cases hrs : replaceSlots env fuel h st rest with
      | none =>
        simp only [hrs] at hrep
        exact Option.noConfusion hrep
      | some out₂ =>
        rcases out₂ with ⟨h₂, st₂, rest₂⟩
        simp only [hrs, Option.some.injEq, Prod.mk.injEq] at hrep
        obtain ⟨hh, hst, hss⟩ := hrep
        obtain ⟨hh₂, hst₂, hrest₂⟩ :=
          replaceSlots_inert env fuel F h st rest h₂ st₂ rest₂ ts₀ hrs hr
            hinert.2
        subst hh₂
        subst hst₂
        subst hrest₂
        exact ⟨hh.symm, hst.symm, by rw [← hss]⟩
  | fuel, F, h, st, .leaf (.num n₀) :: rest, h', st', ss', ts => by
    intro hrep hdump hinert
    simp only [replaceSlots] at hrep
    simp only [dumpSlots] at hdump
    cases hr : dumpSlots F h rest with
    | none =>
      simp only [hr] at hdump
      exact Option.noConfusion hdump
    | some ts₀ =>
      simp only [hr, Option.some.injEq] at hdump
      subst hdump
      simp only [jsonInertList, Bool.and_eq_true] at hinert
      cases hrs : replaceSlots env fuel h st rest with
      | none =>
        simp only [hrs] at hrep
        exact Option.noConfusion hrep
      | some out₂ =>
        rcases out₂ with ⟨h₂, st₂, rest₂⟩
        simp only [hrs, Option.some.injEq, Prod.mk.injEq] at hrep
        obtain ⟨hh, hst, hss⟩ := hrep
        obtain ⟨hh₂, hst₂, hrest₂⟩ :=
          replaceSlots_inert env fuel F h st rest h₂ st₂ rest₂ ts₀ hrs hr
            hinert.2
        subst hh₂
        subst hst₂
        subst hrest₂
        exact ⟨hh.symm, hst.symm, by rw [← hss]⟩
termination_by fuel _ _ _ ss _ _ _ _ => (fuel, ss.length + 1)
end

/-- Only scalars allocate to a leaf, without touching the heap. -/
theorem allocTree_leaf (h : Heap) (t : Json) (h₁ : Heap) (l : JLeaf)
    (ha : allocTree h t = (h₁, .leaf l)) : h₁ = h ∧ leafToJson l = t := by
  cases t with
  | null =>
    simp only [allocTree, Prod.mk.injEq, JSlot.leaf.injEq] at ha
    exact ⟨ha.1.symm, by rw [← ha.2]; rfl⟩
  | bool b =>
    simp only [allocTree, Prod.mk.injEq, JSlot.leaf.injEq] at ha
    exact ⟨ha.1.symm, by rw [← ha.2]; rfl⟩
  | num n =>
    simp only [allocTree, Prod.mk.injEq, JSlot.leaf.injEq] at ha
    exact ⟨ha.1.symm, by rw [← ha.2]; rfl⟩
  | str s =>
    simp only [allocTree, Prod.mk.injEq, JSlot.leaf.injEq] at ha
    exact ⟨ha.1.symm, by rw [← ha.2]; rfl⟩
  | arr xs =>
    simp only [allocTree] at ha
    rcases hl : allocList h xs with ⟨h₂, ss⟩
    rw [hl] at ha
    simp at ha
  | obj kvs =>
    simp only [allocTree] at ha
    rcases hl : allocFields h kvs with ⟨h₂, fs⟩
    rw [hl] at ha
    simp at ha

/-- C9: `_add_dynamic_data` is copy-on-render.  Whenever it completes, (i)
every pre-existing heap object — in particular the cached template graph —
is byte-for-byte unchanged, the result graph living entirely in fresh
addresses; and (ii) a template with no placeholder leaves renders to exactly
its own tree, so two successive renders agree structurally wherever no
placeholder is involved. -/
theorem c9_add_dynamic_data_copy_on_render (env : DynEnv) (fuel : Nat)
    (h : Heap) (st : Nat) (root : JSlot) (h' : Heap) (root' : JSlot) (st' : Nat)
    (hadd : add_dynamic_data env fuel h st root = some (h', root', st')) :
    (∀ i, i < h.length → h'[i]? = h[i]?) ∧ h.length ≤ h'.length ∧
    (∀ F t, dumpSlot F h root = some t → jsonInert t = true →
      ∃ F', dumpSlot F' h' root' = some t) := by
  unfold add_dynamic_data at hadd
  cases hdump : dumpSlot fuel h root with
  | none =>
    simp only [hdump] at hadd
    exact Option.noConfusion hadd
  | some t₀ =>
    simp only [hdump] at hadd
    rcases halloc : allocTree h t₀ with ⟨h₁, r₁⟩
    rw [halloc] at hadd
    cases r₁ with
    | leaf l =>
      simp only [Option.some.injEq, Prod.mk.injEq] at hadd
      obtain ⟨hh', hroot', hst'⟩ := hadd
      obtain ⟨hh₁, hlf⟩ := allocTree_leaf h t₀ h₁ l halloc
      refine ⟨?_, ?_, ?_⟩
      · intro i hi
        rw [← hh', hh₁]
      · rw [← hh', hh₁]
      · intro F t hdF hinert
        have ht : t = t₀ := dumpSlot_det F fuel h root t t₀ hdF hdump
        refine ⟨0, ?_⟩
        rw [← hroot']
        simp only [dumpSlot]
        rw [hlf, ht]
    | ref a =>
      cases hrep : replaceAt env fuel h₁ st a with
      | none =>
        simp only [hrep] at hadd
        exact Option.noConfusion hadd
      | some out =>
        rcases out with ⟨h₂, st₂⟩
        simp only [hrep, Option.some.injEq, Prod.mk.injEq] at hadd
        obtain ⟨hh', hroot', hst'⟩ := hadd
        have hfresh := allocTree_fresh h t₀ h.length (le_refl _) (hiClosed_length h)
        rw [halloc] at hfresh
        have hle₁ : heapLe h h₁ := by
          have := allocTree_le h t₀
          rw [halloc] at this
          exact this
        have hLa : h.length ≤ a := hfresh.2 a rfl
        obtain ⟨hpre, hlen, _⟩ :=
          replaceAt_frame env fuel h.length h₁ st a h₂ st₂ hfresh.1 hLa hrep
        refine ⟨?_, ?_, ?_⟩
        · intro i hi
          rw [← hh', hpre i hi]
          exact heapLe_getElem? hle₁ i hi
        · rw [← hh', hlen]
          exact heapLe_length hle₁
        · intro F t hdF hinert
          have ht : t = t₀ := dumpSlot_det F fuel h root t t₀ hdF hdump
          subst ht
          have hdump₁ := allocTree_dump h t h₁ (by rw [halloc]; exact heapLe_refl h₁)
          rw [halloc] at hdump₁
          obtain ⟨F₁, hF₁⟩ := hdump₁
          have hF₁' : dumpAt F₁ h₁ a = some t := by
            simpa only [dumpSlot] using hF₁
          obtain ⟨hh₂, hst₂⟩ :=
            replaceAt_inert env fuel F₁ h₁ st a h₂ st₂ t hrep hF₁' hinert
          refine ⟨F₁, ?_⟩
          rw [← hroot', ← hh', hh₂]
          simpa only [dumpSlot] using hF₁'

/-- A one-object cached template heap: `{"total": 50}` at address 0. -/
def heapC9 : Heap := [JObj.dict [("total", JSlot.leaf (JLeaf.num 50))]]

/-- The heap after one render: the template untouched at address 0, its
fresh copy at address 1. -/
def heapC9' : Heap :=
  [JObj.dict [("total", JSlot.leaf (JLeaf.num 50))],
   JObj.dict [("total", JSlot.leaf (JLeaf.num 50))]]

/-- C9 witness: the theorem applied to a concrete render of the cached
template at address 0. -/
theorem c9_add_dynamic_data_copy_on_render_witness :
    heapC9'[0]? = heapC9[0]? ∧ heapC9.length ≤ heapC9'.length ∧
    ∃ F', dumpSlot F' heapC9' (.ref 1) = some (Json.obj [("total", Json.num 50)]) := by
  have hadd : add_dynamic_data dynEnvW 3 heapC9 0 (.ref 0) =
      some (heapC9', .ref 1, 0) := by
    simp [add_dynamic_data, heapC9, heapC9', dumpSlot, dumpAt, dumpSlots,
      allocTree, allocFields, allocList, replaceAt, replaceSlots, leafToJson]
  have hmain := c9_add_dynamic_data_copy_on_render dynEnvW 3 heapC9 0 (.ref 0)
    heapC9' (.ref 1) 0 hadd
  refine ⟨hmain.1 0 (by simp [heapC9]), hmain.2.1, ?_⟩
  exact hmain.2.2 3 (Json.obj [("total", Json.num 50)])
    (by simp [dumpSlot, dumpAt, dumpSlots, heapC9, leafToJson])
    (by simp [jsonInert, jsonInertFields, jsonInertList])
